import Mathlib

/-!
Verification of the workflow scheduling core of the `forge` repository.

The embedding follows the source files:
* `src/forge/schemas/workflow.py`   (step graph data model, `get_ready_steps`,
  `resolve_input`)
* `src/forge/utils/cost_tracker.py` (cost ledger)
* `src/forge/agents/solution_architect.py` (`SolutionArchitect.execute_workflow`,
  `SolutionArchitect._execute_step`)

Modelling conventions:
* Python strings are Lean `String`s; the character-level parsing done by
  `resolve_input` (prefix test for `'$'`, `str.split(".")`) is embedded on
  `String.data` (`List Char`) so that everything kernel-reduces.
* Python `None` is `Value.vnone`; arbitrary Python values are the `Value`
  inductive (payloads are opaque to the scheduler).
* Money is measured in integer nano-USD (`ℕ`): every per-token price of the
  rate table is an exact integer in this unit, so the ledger arithmetic
  (`(tokens / 1000) * price_per_1K`, sums, `≥ budget`) is represented exactly
  (the Python code computes the same values in floating point; no verified
  claim depends on float rounding).  Alert threshold fractions are integer
  pairs and the `percent_used ≥ threshold` test is the equivalent
  cross-multiplied comparison.
* Wall-clock datetime fields (`started_at`, `completed_at`,
  `duration_seconds`) are not modelled; dispatch ordering is instead made
  observable through an explicit dispatch log carried by the execution state.
* The injected task runner (`ClaudeAgent.execute`) is an opaque external
  capability, modelled as a function from the step id and the resolved inputs
  to an outcome (normal result, raised exception, or `asyncio.TimeoutError`).
* `asyncio` concurrency inside one parallel group is modelled by the phase
  structure of the event loop: every group member runs its synchronous
  coroutine prefix (mark RUNNING, agent lookup, input resolution, start of
  `agent.execute`) in list order before any member's completion is processed;
  completions are then applied in list order (the final state does not depend
  on the completion order since members only write their own fields).
-/

namespace Forge

/-- Python values as seen by the scheduler: `vnone` is Python `None`; payload
bags (findings, change plans, …) are opaque lists/dicts. -/
inductive Value where
  | vnone : Value
  | vbool (b : Bool) : Value
  | vint (n : Int) : Value
  | vstr (s : String) : Value
  | vlist (l : List Value) : Value
  | vdict (l : List (String × Value)) : Value

instance : Inhabited Value := ⟨Value.vnone⟩

/-- `schemas/workflow.py::WorkflowStatus`. -/
inductive WorkflowStatus where
  | pending | running | paused | completed | failed | cancelled | timeout
deriving DecidableEq, Repr

/-- `schemas/workflow.py::StepStatus`. -/
inductive StepStatus where
  | pending | waiting | running | completed | failed | skipped
deriving DecidableEq, Repr

/-- `schemas/workflow.py::WorkflowStep`.  Wall-clock timestamp fields and the
unused `condition` field are omitted; all fields read or written by
`get_ready_steps`, `resolve_input`, `execute_workflow` and `_execute_step`
are kept. -/
structure WorkflowStep where
  id : String
  agent : String
  task : String := ""
  depends_on : List String := []
  inputs : List (String × Value) := []
  outputs : List (String × Value) := []
  timeout_seconds : Nat := 300
  retry_count : Nat := 0
  retry_delay_seconds : Nat := 5
  parallel_group : Option String := Option.none
  status : StepStatus := StepStatus.pending
  result : Value := Value.vnone
  findings : List Value := []
  change_plan : Value := Value.vnone
  eval_result : Value := Value.vnone
  error_message : Option String := Option.none
  retry_attempts : Nat := 0

instance : Inhabited WorkflowStep := ⟨{ id := "", agent := "" }⟩

/-- `schemas/workflow.py::WorkflowDefinition` (fields used by the scheduler). -/
structure WorkflowDefinition where
  name : String := ""
  steps : List WorkflowStep
  id : String := "WF"
  inputs : List (String × Value) := []
  outputs : List (String × Value) := []
  timeout_seconds : Nat := 3600
  max_parallel_steps : Nat := 3
  stop_on_failure : Bool := true
  status : WorkflowStatus := WorkflowStatus.pending
  current_step_id : Option String := Option.none
  total_cost_usd : Nat := 0
  total_tokens : Nat := 0
  all_findings : List Value := []
  all_change_plans : List Value := []
  all_eval_results : List Value := []
  error_message : Option String := Option.none
  failed_step_id : Option String := Option.none

/-- `WorkflowDefinition.step_count`. -/
def WorkflowDefinition.step_count (wf : WorkflowDefinition) : Nat := wf.steps.length

/-- `WorkflowDefinition.completed_steps`: number of steps whose status is
COMPLETED. -/
def WorkflowDefinition.completed_steps (wf : WorkflowDefinition) : Nat :=
  (wf.steps.filter (fun s => decide (s.status = StepStatus.completed))).length

/-- `WorkflowDefinition.get_step`: first step with the given id, if any. -/
def WorkflowDefinition.get_step (wf : WorkflowDefinition) (step_id : String) :
    Option WorkflowStep :=
  wf.steps.find? (fun s => s.id = step_id)

/-- Dependency check used by `get_ready_steps`: every id in `depends_on`
that resolves to an existing step must have status COMPLETED (a dependency on
a nonexistent id is vacuously satisfied). -/
def depsMet (wf : WorkflowDefinition) (step : WorkflowStep) : Bool :=
  step.depends_on.all (fun dep_id =>
    match wf.get_step dep_id with
    | Option.some s => decide (s.status = StepStatus.completed)
    | Option.none => true)

/-- `WorkflowDefinition.get_ready_steps`: steps with status PENDING whose
dependencies are met. -/
def WorkflowDefinition.get_ready_steps (wf : WorkflowDefinition) : List WorkflowStep :=
  wf.steps.filter (fun step => decide (step.status = StepStatus.pending) && depsMet wf step)

/-- Python `str.split(sep)` for a one-character separator, on `List Char`.
`splitOnChar sep ""` is `[[]]`, matching Python `"".split(".") == [""]`. -/
def splitOnChar (sep : Char) : List Char → List (List Char)
  | [] => [[]]
  | c :: cs =>
    let rest := splitOnChar sep cs
    if c = sep then [] :: rest
    else
      match rest with
      | [] => [[c]]
      | p :: ps => (c :: p) :: ps

/-- Python `dict.get(key)` on an association list with `String` keys compared
against a `List Char` key: `vnone` (Python `None`) when absent. -/
def dictGetC (kvs : List (String × Value)) (key : List Char) : Value :=
  match kvs.find? (fun p => decide (p.1.data = key)) with
  | Option.some p => p.2
  | Option.none => Value.vnone

/-- `get_step` keyed by a `List Char` id (as extracted by reference parsing). -/
def getStepC (wf : WorkflowDefinition) (step_id : List Char) : Option WorkflowStep :=
  wf.steps.find? (fun s => decide (s.id.data = step_id))

/-- The `$`-reference branch of `resolve_input`: `rest` is the string after
the leading `'$'` (`value[1:]`), split on `"."`.  The match arms mirror `if
len(parts) < 2: return value` followed by `source, key = parts[0],
parts[1]`. -/
def resolveDollar (wf : WorkflowDefinition) (s : String) (rest : List Char) : Value :=
  match splitOnChar '.' rest with
  | source :: key :: _ =>
    if source = "workflow".data then dictGetC wf.inputs key
    else
      match getStepC wf source with
      | Option.none => Value.vstr s
      | Option.some step =>
        if key = "findings".data then Value.vlist step.findings
        else if key = "change_plan".data then step.change_plan
        else if key = "eval_result".data then step.eval_result
        else if key = "result".data then step.result
        else dictGetC step.outputs key
  | _ => Value.vstr s

/-- `WorkflowDefinition.resolve_input`: resolve `$source.key` references
against workflow inputs and step outputs; non-`$` values and unresolvable
references pass through unchanged. -/
def WorkflowDefinition.resolve_input (wf : WorkflowDefinition) (value : Value) : Value :=
  match value with
  | Value.vstr s =>
    match s.data with
    | [] => value
    | c :: rest => if c = '$' then resolveDollar wf s rest else value
  | _ => value

/-- Python truthiness for the modelled values (`if step.findings:`,
`if step.change_plan:` …). -/
def pyTruthy : Value → Bool
  | Value.vnone => false
  | Value.vbool b => b
  | Value.vint n => decide (n ≠ 0)
  | Value.vstr s => decide (s ≠ "")
  | Value.vlist l => !l.isEmpty
  | Value.vdict l => !l.isEmpty

/-! ### Cost ledger — `utils/cost_tracker.py` -/

/-- `cost_tracker.py::CostEntry` (timestamp and free-form metadata omitted;
`cost_usd` is in nano-USD). -/
structure CostEntry where
  model : String
  provider : String := "anthropic"
  input_tokens : Nat
  output_tokens : Nat
  cost_usd : Nat

/-- `cost_tracker.py::CostTracker` state.  Money is in nano-USD; alerts are
recorded by their threshold fraction (the Python message string interpolates
floats, which is presentation only).  Disk persistence is not modelled. -/
structure CostTracker where
  budget_usd : Nat := 10000000000
  entries : List CostEntry := []
  alerts : List (Nat × Nat) := []
  triggered_thresholds : List (Nat × Nat) := []

/-- `CostTracker.PRICING`, converted from USD per 1K tokens to the exact
per-token price in nano-USD `(input, output)`: e.g. `0.015 $/1K = 15000
nano-USD per token`. -/
def PRICING : List (String × (Nat × Nat)) :=
  [ ("claude-opus-4", (15000, 75000)),
    ("claude-sonnet-4", (3000, 15000)),
    ("claude-haiku-3.5", (800, 4000)),
    ("gpt-4o", (5000, 15000)),
    ("gpt-4o-mini", (150, 600)),
    ("gemini-2.0-flash", (100, 400)),
    ("gemini-2.0-pro", (1250, 5000)) ]

/-- `CostTracker.calculate_cost`: rate-table lookup with a default rate for
unknown models; `(input_tokens / 1000) * price_per_1K` equals
`input_tokens * price_per_token` exactly in nano-USD. -/
def calculate_cost (model : String) (input_tokens output_tokens : Nat) : Nat :=
  let pricing := match PRICING.find? (fun kv => decide (kv.1 = model)) with
    | Option.some kv => kv.2
    | Option.none => (3000, 15000)
  input_tokens * pricing.1 + output_tokens * pricing.2

/-- `CostTracker.get_total_cost`. -/
def get_total_cost (t : CostTracker) : Nat :=
  (t.entries.map (fun e => e.cost_usd)).sum

/-- `CostTracker.is_over_budget`: total spend `≥` budget (equality included). -/
def is_over_budget (t : CostTracker) : Bool :=
  decide (get_total_cost t ≥ t.budget_usd)

/-- Alert fractions `_alert_thresholds = [0.5, 0.75, 0.9, 1.0]` as
numerator/denominator pairs. -/
def alertThresholds : List (Nat × Nat) := [(1, 2), (3, 4), (9, 10), (1, 1)]

/-- `CostTracker._check_budget_alerts`: fire each threshold at most once.
`percent_used ≥ threshold` (with `percent_used = total / budget` when the
budget is positive, else `0`) is the cross-multiplied integer comparison. -/
def check_budget_alerts (t : CostTracker) : CostTracker :=
  alertThresholds.foldl
    (fun acc th =>
      if th ∉ acc.triggered_thresholds ∧
          (if 0 < t.budget_usd then get_total_cost t * th.2 ≥ th.1 * t.budget_usd
           else False) then
        { acc with triggered_thresholds := acc.triggered_thresholds ++ [th],
                   alerts := acc.alerts ++ [th] }
      else acc)
    t

/-- `CostTracker.record` (persistence `_save` omitted). -/
def record (t : CostTracker) (model : String) (input_tokens output_tokens : Nat) :
    CostTracker :=
  let cost := calculate_cost model input_tokens output_tokens
  let entry : CostEntry :=
    { model := model, input_tokens := input_tokens,
      output_tokens := output_tokens, cost_usd := cost }
  check_budget_alerts { t with entries := t.entries ++ [entry] }

/-! ### The scheduler — `agents/solution_architect.py`

`SolutionArchitect.execute_workflow` / `_execute_step`.  The execution state
carries the mutable workflow, the architect's cost tracker, and the fields of
the `WorkflowExecutionResult` local (`success`, `error`, aggregated payload
bags).  Two instrumentation logs make the claims observable: `dispatchLog`
records, for each step passed to `_execute_step`, whether its dependencies
were all COMPLETED at that moment, and `runnerLog` records each invocation of
the injected task runner (`agent.execute`). -/

/-- Outcome of one awaited `agent.execute(task)` call, as seen by
`_execute_step`: a returned `AgentResult` (`success`, `output`, `error`,
`tokens_used`), a raised exception (`exc` with its `str(e)` text), or an
`asyncio.TimeoutError` from `asyncio.wait_for`. -/
inductive RunnerOutcome where
  | ok (success : Bool) (output : String) (error : Option String) (tokens_used : Nat)
  | exc (msg : String)
  | timeout

/-- The external collaborators injected into the scheduler: the agent registry
`ALL_AGENTS` (name ↦ model identifier of the agent's definition) and the task
runner behaviour (step id and resolved inputs ↦ outcome).  A step is passed to
the runner at most once per run, so a function of the step id is fully
general. -/
structure AgentEnv where
  agents : List (String × String)
  run : String → List (String × Value) → RunnerOutcome

/-- One record in the dispatch log: which step was handed to `_execute_step`,
and whether every `depends_on` id naming an existing step had status COMPLETED
at that moment. -/
structure DispatchEntry where
  step_id : String
  deps_ok : Bool

/-- Execution state of one `execute_workflow` run. -/
structure ExecState where
  wf : WorkflowDefinition
  tracker : CostTracker
  success : Bool := true
  error : Option String := Option.none
  resFindings : List Value := []
  resChangePlans : List Value := []
  resEvalResults : List Value := []
  dispatchLog : List DispatchEntry := []
  runnerLog : List String := []

/-- The step stored at index `i` (the Python code mutates step objects in
place; indices model object identity). -/
def stepAt (st : ExecState) (i : Nat) : WorkflowStep :=
  st.wf.steps.getD i default

/-- Replace the step at index `i` by `f` of it. -/
def updStep (st : ExecState) (i : Nat) (f : WorkflowStep → WorkflowStep) : ExecState :=
  { st with wf := { st.wf with steps := st.wf.steps.set i (f (stepAt st i)) } }

/-- Indices of the ready steps, in list order: status PENDING and
dependencies met (mirrors `get_ready_steps`; indices stand for the step
object references Python passes around). -/
def readyIdxs (wf : WorkflowDefinition) : List Nat :=
  (List.range wf.steps.length).filter
    (fun i =>
      let s := wf.steps.getD i default
      decide (s.status = StepStatus.pending) && depsMet wf s)

/-- Python truthiness of `step.parallel_group` (`None` and `""` are falsy):
the group tag under which a ready step joins a parallel batch, if any. -/
def pgroupOf (s : WorkflowStep) : Option String :=
  match s.parallel_group with
  | Option.some g => if g = "" then Option.none else Option.some g
  | Option.none => Option.none

/-- Insert a ready step index into the insertion-ordered group table
(`parallel_groups[group].append(step)` with dict insertion order). -/
def addToGroups (gs : List (String × List Nat)) (g : String) (i : Nat) :
    List (String × List Nat) :=
  match gs with
  | [] => [(g, [i])]
  | (k, l) :: rest =>
    if k = g then (k, l ++ [i]) :: rest else (k, l) :: addToGroups rest g i

/-- Partition the ready steps into parallel groups and ungrouped
("sequential") steps, in list order. -/
def partitionReady (wf : WorkflowDefinition) (ready : List Nat) :
    List (String × List Nat) × List Nat :=
  ready.foldl
    (fun acc i =>
      match pgroupOf (wf.steps.getD i default) with
      | Option.some g => (addToGroups acc.1 g i, acc.2)
      | Option.none => (acc.1, acc.2 ++ [i]))
    ([], [])

/-- What a started step-coroutine still owes the event loop: the agent was
missing (a `ValueError` will surface at the `await`), or the runner outcome
together with the agent's model identifier (for cost recording). -/
inductive PendingOutcome where
  | noAgent (agentName : String)
  | out (model : String) (o : RunnerOutcome)

/-- State effect of the synchronous prefix of `_execute_step` on the step at
index `i`: dispatch bookkeeping, `step.status = RUNNING`,
`workflow.current_step_id`. -/
def prepBase (st : ExecState) (i : Nat) : ExecState :=
  let st1 := { st with
    dispatchLog := st.dispatchLog ++
      [{ step_id := (stepAt st i).id, deps_ok := depsMet st.wf (stepAt st i) }] }
  let st2 := updStep st1 i (fun s => { s with status := StepStatus.running })
  { st2 with wf := { st2.wf with current_step_id := Option.some (stepAt st i).id } }

/-- The synchronous prefix of `_execute_step` for the step at index `i`:
dispatch bookkeeping, `step.status = RUNNING`, `workflow.current_step_id`,
agent lookup, input resolution through `resolve_input` (against the state
after the step was marked RUNNING), and the start of the runner call. -/
def prepStep (env : AgentEnv) (st : ExecState) (i : Nat) : ExecState × PendingOutcome :=
  match List.find? (fun kv => decide (kv.1 = (stepAt st i).agent)) env.agents with
  | Option.none => (prepBase st i, PendingOutcome.noAgent (stepAt st i).agent)
  | Option.some kv =>
    ({ prepBase st i with
       runnerLog := (prepBase st i).runnerLog ++ [(stepAt st i).id] },
     PendingOutcome.out kv.2 (env.run (stepAt st i).id
       ((stepAt st i).inputs.map (fun p => (p.1, (prepBase st i).wf.resolve_input p.2)))))

/-- The exception text that a pending outcome raises at its `await`, if any
(`str(asyncio.TimeoutError())` is the empty string). -/
def excText : PendingOutcome → Option String
  | PendingOutcome.noAgent a => Option.some ("Agent not found: " ++ a)
  | PendingOutcome.out _ RunnerOutcome.timeout => Option.some ""
  | PendingOutcome.out _ (RunnerOutcome.exc m) => Option.some m
  | PendingOutcome.out _ (RunnerOutcome.ok _ _ _ _) => Option.none

/-- The rest of `_execute_step` after the runner call returns: on timeout mark
the step FAILED with the timeout message (then re-raise); on a returned
`AgentResult` store `result.output`, set COMPLETED/FAILED from
`result.success`, and record `tokens_used // 2` input and output tokens
against the agent's model.  A raised exception performs none of this. -/
def applyOutcome (st : ExecState) (i : Nat) : PendingOutcome → ExecState
  | PendingOutcome.noAgent _ => st
  | PendingOutcome.out _ RunnerOutcome.timeout =>
    updStep st i (fun s =>
      { s with status := StepStatus.failed,
               error_message := Option.some
                 ("Step timed out after " ++ toString s.timeout_seconds ++ "s") })
  | PendingOutcome.out _ (RunnerOutcome.exc _) => st
  | PendingOutcome.out model (RunnerOutcome.ok success output error tokens_used) =>
    updStep
      { st with tracker := record st.tracker model (tokens_used / 2) (tokens_used / 2) } i
      (fun s =>
        { s with result := Value.vstr output,
                 status := if success then StepStatus.completed else StepStatus.failed,
                 error_message := if success then s.error_message else error })

/-- Phase one of a parallel group (`asyncio.gather` start): run every member's
synchronous coroutine prefix in list order, collecting the pending
outcomes. -/
def runPhaseA (env : AgentEnv) (st : ExecState) :
    List Nat → ExecState × List (Nat × PendingOutcome)
  | [] => (st, [])
  | i :: rest =>
    let p := prepStep env st i
    let r := runPhaseA env p.1 rest
    (r.1, (i, p.2) :: r.2)

/-- Phase two: each member's completion is processed by the tail of
`_execute_step` (`applyOutcome`); members whose runner raised do nothing
here. -/
def runPhaseB (st : ExecState) : List (Nat × PendingOutcome) → ExecState
  | [] => st
  | (i, po) :: rest => runPhaseB (applyOutcome st i po) rest

/-- The per-step failure handler of the batch loops: `step.status = FAILED;
step.error_message = str(e)`. -/
def markFailed (m : String) (s : WorkflowStep) : WorkflowStep :=
  { s with status := StepStatus.failed, error_message := Option.some m }

/-- The `stop_on_failure` exit: fail the workflow, record the failed step id,
and surface the step error on the result. -/
def failWorkflow (st : ExecState) (sid m : String) : ExecState :=
  { st with
    wf := { st.wf with status := WorkflowStatus.failed,
                       failed_step_id := Option.some sid },
    success := false,
    error := Option.some ("Step " ++ sid ++ " failed: " ++ m) }

/-- Phase three: the `zip(group_steps, step_results)` loop over the gathered
results.  A member whose outcome is an exception is marked FAILED with the
exception text; under `stop_on_failure` the workflow is failed on the first
such member and the loop `break`s (later members of the group are left
untouched). -/
def runPhaseC (st : ExecState) : List (Nat × PendingOutcome) → ExecState
  | [] => st
  | (i, po) :: rest =>
    match excText po with
    | Option.none => runPhaseC st rest
    | Option.some m =>
      let sid := (stepAt st i).id
      let st := updStep st i (markFailed m)
      if st.wf.stop_on_failure then failWorkflow st sid m
      else runPhaseC st rest

/-- Execute one parallel group: fan out all members, await them all, then
apply per-member failure handling. -/
def runGroup (env : AgentEnv) (st : ExecState) (members : List Nat) : ExecState :=
  let p := runPhaseA env st members
  runPhaseC (runPhaseB p.1 p.2) p.2

/-- Execute the parallel groups of one batch in insertion order. -/
def runGroups (env : AgentEnv) (st : ExecState) : List (String × List Nat) → ExecState
  | [] => st
  | (_, members) :: rest => runGroups env (runGroup env st members) rest

/-- Execute the dispatched prefix of the sequential (ungrouped) ready steps,
one at a time: skip out early when the result is already failed under
`stop_on_failure`; otherwise run `_execute_step`, and on an exception mark the
step FAILED (under `stop_on_failure`, fail the workflow and stop). -/
def runSeq (env : AgentEnv) (st : ExecState) : List Nat → ExecState
  | [] => st
  | i :: rest =>
    if !st.success && st.wf.stop_on_failure then st
    else
      let p := prepStep env st i
      let st := applyOutcome p.1 i p.2
      match excText p.2 with
      | Option.none => runSeq env st rest
      | Option.some m =>
        let sid := (stepAt st i).id
        let st := updStep st i (markFailed m)
        if st.wf.stop_on_failure then failWorkflow st sid m
        else runSeq env st rest

/-- One batch: partition the ready steps, run the parallel groups, then up to
`max_parallel_steps` sequential steps. -/
def runBatch (env : AgentEnv) (st : ExecState) (ready : List Nat) : ExecState :=
  let parts := partitionReady st.wf ready
  let st := runGroups env st parts.1
  runSeq env st (parts.2.take st.wf.max_parallel_steps)

/-- Error message of the stuck-workflow exit. -/
def stuckMsg : String := "Workflow stuck: steps have unmet dependencies"

/-- Error message of the budget exit. -/
def budgetMsg : String := "Budget exceeded"

/-- Result of one pass of the `while True` loop body: `done` leaves the loop,
`again` goes back to the top. -/
inductive IterOut where
  | done (st : ExecState)
  | again (st : ExecState)

/-- The state carried by either loop outcome. -/
def IterOut.state : IterOut → ExecState
  | IterOut.done st => st
  | IterOut.again st => st

/-- The failure state of the stuck-workflow exit. -/
def stuckFailState (st : ExecState) : ExecState :=
  { st with
    wf := { st.wf with status := WorkflowStatus.failed,
                       error_message := Option.some stuckMsg },
    success := false,
    error := Option.some stuckMsg }

/-- The failure state produced by the post-batch budget gate. -/
def budgetFailState (st : ExecState) : ExecState :=
  { st with
    wf := { st.wf with status := WorkflowStatus.failed,
                       error_message := Option.some budgetMsg },
    success := false,
    error := Option.some budgetMsg }

/-- The checks following a batch: the budget gate first (regardless of
`stop_on_failure`), then the failed-result exit. -/
def afterBatch (st : ExecState) : IterOut :=
  if is_over_budget st.tracker then IterOut.done (budgetFailState st)
  else if !st.success then IterOut.done st
  else IterOut.again st

/-- One pass of the `while True` body of `execute_workflow`: compute ready
steps; if none, either finish (no PENDING left), fail as stuck (nothing
RUNNING either), or re-poll; otherwise run the batch, then the budget gate,
then the `stop_on_failure` exit. -/
def runIteration (env : AgentEnv) (st : ExecState) : IterOut :=
  if (readyIdxs st.wf).isEmpty then
    if (st.wf.steps.filter (fun s => decide (s.status = StepStatus.pending))).isEmpty then
      IterOut.done st
    else if (st.wf.steps.filter (fun s => decide (s.status = StepStatus.running))).isEmpty then
      IterOut.done (stuckFailState st)
    else
      IterOut.again st
  else
    afterBatch (runBatch env st (readyIdxs st.wf))

/-- The `while True` loop, fuel-bounded: `Option.none` means the loop was
still running after `fuel` passes (the Python loop has no intrinsic bound;
theorems about termination exhibit a sufficient fuel). -/
def runLoop (env : AgentEnv) : Nat → ExecState → Option ExecState
  | 0, _ => Option.none
  | n + 1, st =>
    match runIteration env st with
    | IterOut.done st' => Option.some st'
    | IterOut.again st' => runLoop env n st'

/-- The code after the loop: aggregate the steps' payload bags into the
result (the `Finding.from_dict` / `ChangePlan.from_dict` /
`EvalResult.from_dict` re-parses are schema plumbing outside the scheduler
and are modelled as identity on the opaque payloads), then mark the workflow
COMPLETED if the result is still successful.  `aggregateStep` collects one
step's payload bags into the result. -/
def aggregateStep (acc : ExecState) (s : WorkflowStep) : ExecState :=
  let acc := if pyTruthy (Value.vlist s.findings) then
    { acc with resFindings := acc.resFindings ++ s.findings } else acc
  let acc := if pyTruthy s.change_plan then
    { acc with resChangePlans := acc.resChangePlans ++ [s.change_plan] } else acc
  if pyTruthy s.eval_result then
    { acc with resEvalResults := acc.resEvalResults ++ [s.eval_result] } else acc

def finishWorkflow (st : ExecState) : ExecState :=
  let st := st.wf.steps.foldl aggregateStep st
  if st.success then { st with wf := { st.wf with status := WorkflowStatus.completed } }
  else st

/-- The initial execution state: `workflow.status = RUNNING` and a fresh
successful result.  The tracker is the architect's `self.cost_tracker`, which
outlives a single call. -/
def initState (wf : WorkflowDefinition) (tracker : CostTracker) : ExecState :=
  { wf := { wf with status := WorkflowStatus.running }, tracker := tracker }

/-- The `AttributeError` raised by the `finally` block of `execute_workflow`:
it reads `self.cost_tracker.total_cost_usd` and `self.cost_tracker.total_tokens`,
attributes that `CostTracker` (`utils/cost_tracker.py`) never defines. -/
def attrErrorMsg : String :=
  "AttributeError: 'CostTracker' object has no attribute 'total_cost_usd'"

/-- `SolutionArchitect.execute_workflow`, end to end: run the loop, aggregate
and finalize, then the `finally` block — whose attribute access raises, so
whenever the loop terminates the call raises `AttributeError` instead of
returning the `WorkflowExecutionResult` (`Except.error`).  `Option.none`
means the loop never terminated within `fuel` passes. -/
def executeWorkflow (env : AgentEnv) (wf : WorkflowDefinition) (tracker : CostTracker)
    (fuel : Nat) : Option (ExecState × Except String Unit) :=
  match runLoop env fuel (initState wf tracker) with
  | Option.none => Option.none
  | Option.some st => Option.some (finishWorkflow st, Except.error attrErrorMsg)

/-! ### Concrete workflows and environments used by witnesses and
counterexamples -/

/-- Whether a value is a string starting with `'$'` (the only values
`resolve_input` tries to interpret). -/
def isDollarStr : Value → Bool
  | Value.vstr s =>
    match s.data with
    | '$' :: _ => true
    | _ => false
  | _ => false

/-- A concrete instantiation of C9: in a two-step workflow where `A` is
COMPLETED, step `B` (depending on `A` and on a nonexistent id) is ready. -/
def c9wf : WorkflowDefinition :=
  { steps :=
      [ { id := "A", agent := "ag", status := StepStatus.completed },
        { id := "B", agent := "ag", depends_on := ["A", "ghost"] } ] }

/-- An environment whose single agent `ag` always succeeds reporting zero
token usage. -/
def okEnv : AgentEnv :=
  { agents := [("ag", "claude-sonnet-4")],
    run := fun _ _ => RunnerOutcome.ok true "out" Option.none 0 }

/-- An environment whose single agent raises `RuntimeError("boom")` on every
invocation. -/
def boomEnv : AgentEnv :=
  { agents := [("ag", "claude-sonnet-4")],
    run := fun _ _ => RunnerOutcome.exc "boom" }

/-- An environment that raises `kaput` for step `A` and succeeds with zero
usage for every other step. -/
def kaputAEnv : AgentEnv :=
  { agents := [("ag", "claude-sonnet-4")],
    run := fun sid _ =>
      if sid = "A" then RunnerOutcome.exc "kaput"
      else RunnerOutcome.ok true "out" Option.none 0 }

/-- An environment that raises `boom` for step `C` and succeeds with zero
usage for every other step. -/
def boomCEnv : AgentEnv :=
  { agents := [("ag", "claude-sonnet-4")],
    run := fun sid _ =>
      if sid = "C" then RunnerOutcome.exc "boom"
      else RunnerOutcome.ok true "out" Option.none 0 }

/-- A workflow with no steps at all, {} as every bag. -/
def emptyWf : WorkflowDefinition := { steps := [] }

/-- A single-step workflow whose step asks for 3 retries with a 5-second
delay. -/
def retryWf : WorkflowDefinition :=
  { steps := [ { id := "A", agent := "ag", retry_count := 3,
                 retry_delay_seconds := 5 } ] }

/-- A single-step workflow with no dependencies. -/
def oneStepWf : WorkflowDefinition := { steps := [ { id := "A", agent := "ag" } ] }

/-- A workflow with a two-step dependency cycle `A ↔ B` plus an independent
step `C`, with `stop_on_failure = true` (the default). -/
def cycleWf : WorkflowDefinition :=
  { steps :=
      [ { id := "A", agent := "ag", depends_on := ["B"] },
        { id := "B", agent := "ag", depends_on := ["A"] },
        { id := "C", agent := "ag" } ] }

/-- Two independent steps `A` and `B` with `stop_on_failure = false`. -/
def abWf : WorkflowDefinition :=
  { steps := [ { id := "A", agent := "ag" }, { id := "B", agent := "ag" } ],
    stop_on_failure := false }

/-- A two-batch workflow for the budget gate: `B` depends on `A`, so `B` can
only be dispatched in a batch after `A`'s. -/
def c4Wf : WorkflowDefinition :=
  { steps := [ { id := "A", agent := "ag" },
               { id := "B", agent := "ag", depends_on := ["A"] } ] }

/-- An environment whose runner succeeds reporting 2000 tokens used: with the
`claude-sonnet-4` rates, `_execute_step` records `1000` input and `1000`
output tokens, costing exactly `0.018` USD (`18000000` nano-USD). -/
def c4Env : AgentEnv :=
  { agents := [("ag", "claude-sonnet-4")],
    run := fun _ _ => RunnerOutcome.ok true "out" Option.none 2000 }

/-! ### Definitions used by the invariant proofs (C1, C3, C5, C6)

These are verification-side notions (not code from the repository): the index
of the step `get_step` returns, the per-step "skeleton" (the fields the
scheduler never mutates), topological orders formalizing "acyclic dependency
graph", and the invariants threaded through the loop. -/

/-- Index of the first list element satisfying `p`. -/
def findIdxA (p : WorkflowStep → Bool) : List WorkflowStep → Option Nat
  | [] => Option.none
  | s :: l => if p s then Option.some 0 else (findIdxA p l).map (fun n => n + 1)

/-- Index of the step `get_step wf d` returns. -/
def getStepIdx (wf : WorkflowDefinition) (d : String) : Option Nat :=
  findIdxA (fun s => decide (s.id = d)) wf.steps

/-- The step fields the scheduler never writes: id, agent, dependencies,
parallel group. -/
def stepSkel (s : WorkflowStep) : String × String × List String × Option String :=
  (s.id, s.agent, s.depends_on, s.parallel_group)

/-- Two workflows agree on everything the loop's control decisions read
except statuses: step skeletons, the sequential cap, `stop_on_failure`. -/
def sameSkel (w1 w2 : WorkflowDefinition) : Prop :=
  w1.steps.map stepSkel = w2.steps.map stepSkel ∧
  w1.max_parallel_steps = w2.max_parallel_steps ∧
  w1.stop_on_failure = w2.stop_on_failure

/-- `L` is a topological order witnessing acyclicity of `wf`'s dependency
graph: every step id occurs in `L`, and every dependency that resolves to an
existing step occurs strictly earlier in `L` than the dependent step. -/
def topoOkB (wf : WorkflowDefinition) (L : List String) : Bool :=
  wf.steps.all (fun s => decide (s.id ∈ L)) &&
  wf.steps.all (fun s => s.depends_on.all (fun d =>
    match getStepIdx wf d with
    | Option.some j => decide (L.indexOf (wf.steps.getD j default).id < L.indexOf s.id)
    | Option.none => true))

/-- Hypotheses of the "clean run" theorems: every agent named by a step
exists; the runner's behaviour per step id is fixed — steps in the `fails`
set raise with message `em`, all others return a successful `AgentResult`
with output `outp` and zero token usage; failing steps are only allowed when
`stop_on_failure` is off; and no step depends on a failing step's id. -/
structure RunSpec (env : AgentEnv) (wf0 : WorkflowDefinition)
    (fails : String → Bool) (em outp : String → String) : Prop where
  agents_found : ∀ s ∈ wf0.steps,
    (List.find? (fun kv => decide (kv.1 = s.agent)) env.agents).isSome = true
  run_eq : ∀ s ∈ wf0.steps, ∀ ins, env.run s.id ins =
    (if fails s.id = true then RunnerOutcome.exc (em s.id)
     else RunnerOutcome.ok true (outp s.id) Option.none 0)
  sof_ok : wf0.stop_on_failure = false ∨ ∀ s ∈ wf0.steps, fails s.id = false
  no_dep_on_failing : ∀ s ∈ wf0.steps, ∀ d ∈ s.depends_on, fails d = false

/-- Step-level invariant of a clean run: a step is still PENDING, or has
COMPLETED (then it is not a failing step), or is a failing step marked FAILED
with its exception text. -/
def stepOKInv (fails : String → Bool) (em : String → String) (s : WorkflowStep) : Prop :=
  s.status = StepStatus.pending ∨
  (fails s.id = false ∧ s.status = StepStatus.completed) ∨
  (fails s.id = true ∧ s.status = StepStatus.failed ∧
    s.error_message = Option.some (em s.id))

/-- Loop invariant of a clean run: the skeleton is that of the submitted
workflow, the result is still successful, the ledger has not moved, and every
step satisfies `stepOKInv`. -/
def MInv (wf0 : WorkflowDefinition) (tr0 : CostTracker) (fails : String → Bool)
    (em : String → String) (st : ExecState) : Prop :=
  sameSkel st.wf wf0 ∧ st.success = true ∧
  get_total_cost st.tracker = get_total_cost tr0 ∧
  st.tracker.budget_usd = tr0.budget_usd ∧
  ∀ i, i < st.wf.steps.length → stepOKInv fails em (st.wf.steps.getD i default)

/-- Number of steps still PENDING (the loop's termination measure). -/
def pendingCount (st : ExecState) : Nat :=
  (st.wf.steps.filter (fun s => decide (s.status = StepStatus.pending))).length

/-- All recorded dispatches had their dependencies COMPLETED (claim C3's
invariant). -/
def logOk (st : ExecState) : Prop := ∀ e ∈ st.dispatchLog, e.deps_ok = true

/-- Frame facts preserved by every transformer of the loop body: step
skeletons, the sequential cap, `stop_on_failure`, the budget ceiling. -/
def frameOK (st st' : ExecState) : Prop :=
  st'.wf.steps.map stepSkel = st.wf.steps.map stepSkel ∧
  st'.wf.max_parallel_steps = st.wf.max_parallel_steps ∧
  st'.wf.stop_on_failure = st.wf.stop_on_failure ∧
  st'.tracker.budget_usd = st.tracker.budget_usd

/-- All step indices a batch may touch: the parallel-group members and the
sequential steps of the partition. -/
def bucketsFlat (parts : List (String × List Nat) × List Nat) : List Nat :=
  (parts.1.map (fun g => g.2)).flatten ++ parts.2

/-- Completed steps stay completed: the persistence relation anchoring claim
C3's dispatch argument at the batch start. -/
def keepsCompleted (st0 st' : ExecState) : Prop :=
  ∀ j, (stepAt st0 j).status = StepStatus.completed →
    (stepAt st' j).status = StepStatus.completed

/-- The `§8` scenario workflow: `A` alone, then `B` (ungrouped) and `C`, `D`
(parallel group `g1`) all depending on `A`. -/
def spec8Wf : WorkflowDefinition :=
  { steps :=
      [ { id := "A", agent := "ag" },
        { id := "B", agent := "ag", depends_on := ["A"] },
        { id := "C", agent := "ag", depends_on := ["A"],
          parallel_group := Option.some "g1" },
        { id := "D", agent := "ag", depends_on := ["A"],
          parallel_group := Option.some "g1" } ] }

/-- The id of the step at index `i` of the submitted workflow (constant
through a run: the scheduler never writes the id field). -/
def idAt (wf0 : WorkflowDefinition) (i : Nat) : String :=
  (wf0.steps.getD i default).id

/-- The runner outcome a clean-run environment (`RunSpec`) produces for the
step at index `i`: an exception with text `em` for failing steps, a
successful zero-usage `AgentResult` with output `outp` otherwise. -/
def cleanOut (wf0 : WorkflowDefinition) (fails : String → Bool)
    (em outp : String → String) (i : Nat) : RunnerOutcome :=
  if fails (idAt wf0 i) = true then RunnerOutcome.exc (em (idAt wf0 i))
  else RunnerOutcome.ok true (outp (idAt wf0 i)) Option.none 0

/-- Every pending outcome of a batch phase is the clean-run one of its
index. -/
def outsClean (wf0 : WorkflowDefinition) (fails : String → Bool)
    (em outp : String → String) (outs : List (Nat × PendingOutcome)) : Prop :=
  ∀ x ∈ outs, ∃ mdl, x.2 = PendingOutcome.out mdl (cleanOut wf0 fails em outp x.1)

/-- The step with id `sid` has been fully resolved by a clean run: COMPLETED
if its runner succeeds, FAILED with its exception text if it raises. -/
def stepDoneAt (fails : String → Bool) (em : String → String) (sid : String)
    (s : WorkflowStep) : Prop :=
  (fails sid = false ∧ s.status = StepStatus.completed) ∨
  (fails sid = true ∧ s.status = StepStatus.failed ∧
    s.error_message = Option.some (em sid))

/-- The member indices of all parallel groups of a batch partition. -/
def allMembers (gs : List (String × List Nat)) : List Nat :=
  (gs.map (fun g => g.2)).flatten

/-! ### The reference-resolver and ready-query claims (C8, C9, C10) -/

/-- `depsMet` as a proposition: every `depends_on` id that resolves to an
existing step has status COMPLETED. -/
lemma depsMet_iff (wf : WorkflowDefinition) (s : WorkflowStep) :
    depsMet wf s = true ↔
      ∀ d ∈ s.depends_on, ∀ t, wf.get_step d = Option.some t →
        t.status = StepStatus.completed := by
  unfold depsMet
  rw [List.all_eq_true]
  constructor
  · intro h d hd t ht
    have hx := h d hd
    rw [ht] at hx
    simpa using hx
  · intro h d hd
    cases ht : wf.get_step d with
    | none => simp
    | some t => simpa using h d hd t ht

/-- Claim C9: `get_ready_steps` returns exactly the steps whose status is
PENDING and whose every `depends_on` id that resolves to an existing step has
status COMPLETED — a dependency on a nonexistent step id is treated as
satisfied.  (`get_ready_steps` is a pure function of the workflow value in
this embedding, so the query mutates no step or workflow state by
construction.) -/
theorem C9_get_ready_steps_characterization (wf : WorkflowDefinition) (s : WorkflowStep) :
    s ∈ wf.get_ready_steps ↔
      s ∈ wf.steps ∧ s.status = StepStatus.pending ∧
        ∀ d ∈ s.depends_on, ∀ t, wf.get_step d = Option.some t →
          t.status = StepStatus.completed := by
  unfold WorkflowDefinition.get_ready_steps
  rw [List.mem_filter, Bool.and_eq_true, decide_eq_true_iff, depsMet_iff]

/-- Witness for C9 at a concrete workflow. -/
theorem C9_witness :
    ({ id := "B", agent := "ag", depends_on := ["A", "ghost"] } : WorkflowStep) ∈
      c9wf.get_ready_steps := by
  refine (C9_get_ready_steps_characterization c9wf _).mpr ⟨?_, rfl, ?_⟩
  · simp [c9wf]
  · intro d hd t ht
    fin_cases hd
    · rw [show c9wf.get_step "A" =
          Option.some { id := "A", agent := "ag", status := StepStatus.completed }
          from rfl] at ht
      cases ht
      rfl
    · rw [show c9wf.get_step "ghost" = Option.none from rfl] at ht
      cases ht

/-- Reduce `resolve_input` on a `$`-string to its reference branch. -/
lemma resolve_input_dollar (wf : WorkflowDefinition) (s : String) (rest : List Char)
    (h : s.data = '$' :: rest) :
    wf.resolve_input (Value.vstr s) = resolveDollar wf s rest := by
  show (match s.data with
    | [] => Value.vstr s
    | c :: r => if c = '$' then resolveDollar wf s r else Value.vstr s) =
    resolveDollar wf s rest
  rw [h]
  show (if '$' = '$' then resolveDollar wf s rest else Value.vstr s) = resolveDollar wf s rest
  rw [if_pos rfl]

/-- Claim C8: the `resolve_input` contract.
1. Any value that is not a string beginning with `'$'` is returned unchanged.
2. A reference `$workflow.<key>` returns the value stored under `<key>` in
   the workflow's global inputs (here: when the key is present).
3. A malformed reference (fewer than two dot-separated parts) is returned
   unchanged.
4. A reference whose source names a nonexistent step is returned unchanged. -/
theorem C8_resolve_input_contract :
    (∀ (wf : WorkflowDefinition) (v : Value),
      isDollarStr v = false → wf.resolve_input v = v) ∧
    (∀ (wf : WorkflowDefinition) (s : String) (rest k : List Char)
       (kv : String × Value),
      s.data = '$' :: rest → splitOnChar '.' rest = ["workflow".data, k] →
      wf.inputs.find? (fun p => decide (p.1.data = k)) = Option.some kv →
      wf.resolve_input (Value.vstr s) = kv.2) ∧
    (∀ (wf : WorkflowDefinition) (s : String) (rest : List Char),
      s.data = '$' :: rest → (splitOnChar '.' rest).length < 2 →
      wf.resolve_input (Value.vstr s) = Value.vstr s) ∧
    (∀ (wf : WorkflowDefinition) (s : String) (rest : List Char)
       (source key : List Char) (more : List (List Char)),
      s.data = '$' :: rest → splitOnChar '.' rest = source :: key :: more →
      source ≠ "workflow".data → getStepC wf source = Option.none →
      wf.resolve_input (Value.vstr s) = Value.vstr s) := by
  refine ⟨?_, ?_, ?_, ?_⟩
  · intro wf v hv
    cases v with
    | vstr s =>
      show (match s.data with
        | [] => Value.vstr s
        | c :: rest => if c = '$' then resolveDollar wf s rest else Value.vstr s) =
        Value.vstr s
      cases hd : s.data with
      | nil => rfl
      | cons c cs =>
        have hc : c ≠ '$' := by
          intro hc
          rw [isDollarStr, hd, hc] at hv
          exact Bool.true_eq_false.mp hv
        show (if c = '$' then resolveDollar wf s cs else Value.vstr s) = Value.vstr s
        rw [if_neg hc]
    | vnone => rfl
    | vbool b => rfl
    | vint n => rfl
    | vlist l => rfl
    | vdict l => rfl
  · intro wf s rest k kv hdata hsplit hfind
    rw [resolve_input_dollar wf s rest hdata]
    unfold resolveDollar
    rw [hsplit]
    show (if "workflow".data = "workflow".data then dictGetC wf.inputs k
      else match getStepC wf "workflow".data with
      | Option.none => Value.vstr s
      | Option.some step =>
        if k = "findings".data then Value.vlist step.findings
        else if k = "change_plan".data then step.change_plan
        else if k = "eval_result".data then step.eval_result
        else if k = "result".data then step.result
        else dictGetC step.outputs k) = kv.2
    rw [if_pos rfl]
    unfold dictGetC
    rw [hfind]
  · intro wf s rest hdata hlen
    rw [resolve_input_dollar wf s rest hdata]
    unfold resolveDollar
    cases hs : splitOnChar '.' rest with
    | nil => rfl
    | cons a t =>
      cases t with
      | nil => rfl
      | cons b u =>
        rw [hs] at hlen
        simp only [List.length_cons] at hlen
        omega
  · intro wf s rest source key more hdata hsplit hsrc hstep
    rw [resolve_input_dollar wf s rest hdata]
    unfold resolveDollar
    rw [hsplit]
    show (if source = "workflow".data then dictGetC wf.inputs key
      else match getStepC wf source with
      | Option.none => Value.vstr s
      | Option.some step =>
        if key = "findings".data then Value.vlist step.findings
        else if key = "change_plan".data then step.change_plan
        else if key = "eval_result".data then step.eval_result
        else if key = "result".data then step.result
        else dictGetC step.outputs key) = Value.vstr s
    rw [if_neg hsrc, hstep]

/-- Witness for C8: each branch of the contract applied at a concrete
input. -/
theorem C8_witness :
    (({ steps := [] } : WorkflowDefinition).resolve_input (Value.vint 7) = Value.vint 7) ∧
    (({ steps := [], inputs := [("goal", Value.vstr "g")] } :
        WorkflowDefinition).resolve_input (Value.vstr "$workflow.goal") = Value.vstr "g") ∧
    (({ steps := [] } : WorkflowDefinition).resolve_input (Value.vstr "$nodots") =
      Value.vstr "$nodots") ∧
    (({ steps := [] } : WorkflowDefinition).resolve_input (Value.vstr "$missing_step.result") =
      Value.vstr "$missing_step.result") := by
  refine ⟨?_, ?_, ?_, ?_⟩
  · exact C8_resolve_input_contract.1 _ (Value.vint 7) rfl
  · exact C8_resolve_input_contract.2.1 _ "$workflow.goal" "workflow.goal".data
      "goal".data ("goal", Value.vstr "g") rfl rfl rfl
  · exact C8_resolve_input_contract.2.2.1 _ "$nodots" "nodots".data rfl (by decide)
  · exact C8_resolve_input_contract.2.2.2 { steps := [] } "$missing_step.result"
      "missing_step.result".data "missing_step".data "result".data [] rfl (by decide)
      (by decide) rfl

/-- Claim C10: a `$workflow.<key>` reference whose key is absent from the
global inputs resolves to `None` (the `dict.get` default), not to the
original reference string. -/
theorem C10_workflow_missing_key_gives_none (wf : WorkflowDefinition) (s : String)
    (rest k : List Char) (hdata : s.data = '$' :: rest)
    (hsplit : splitOnChar '.' rest = ["workflow".data, k])
    (hfind : wf.inputs.find? (fun p => decide (p.1.data = k)) = Option.none) :
    wf.resolve_input (Value.vstr s) = Value.vnone ∧
      wf.resolve_input (Value.vstr s) ≠ Value.vstr s := by
  have h : wf.resolve_input (Value.vstr s) = Value.vnone := by
    rw [resolve_input_dollar wf s rest hdata]
    unfold resolveDollar
    rw [hsplit]
    show (if "workflow".data = "workflow".data then dictGetC wf.inputs k
      else match getStepC wf "workflow".data with
      | Option.none => Value.vstr s
      | Option.some step =>
        if k = "findings".data then Value.vlist step.findings
        else if k = "change_plan".data then step.change_plan
        else if k = "eval_result".data then step.eval_result
        else if k = "result".data then step.result
        else dictGetC step.outputs k) = Value.vnone
    rw [if_pos rfl]
    unfold dictGetC
    rw [hfind]
  exact ⟨h, by rw [h]; intro hne; cases hne⟩

/-! ### Concrete runs: the `finally`-block crash (C2), missing retries (C7),
and counterexamples for C1, C5 and C6. -/

/-- Claim C2 (code bug): `execute_workflow` never returns a
`WorkflowExecutionResult` to its caller.  Even on an entirely unproblematic
run (here: the empty workflow, which completes with a successful result and
leaves the workflow COMPLETED), the `finally` block reads
`self.cost_tracker.total_cost_usd` and `self.cost_tracker.total_tokens` —
attributes `CostTracker` does not define — so the call raises
`AttributeError` after the result was built, instead of returning it. -/
theorem C2_finally_block_raises_attribute_error :
    (executeWorkflow okEnv emptyWf {} 1).map (fun p => p.2) =
      Option.some (Except.error attrErrorMsg) ∧
    (executeWorkflow okEnv emptyWf {} 1).map
      (fun p => (p.1.wf.status, p.1.success, p.1.error)) =
      Option.some (WorkflowStatus.completed, true, Option.none) := by
  exact ⟨rfl, rfl⟩

/-- Claim C7 (code bug): `_execute_step` implements no retry policy.  For a
step with `retry_count = 3` whose runner always raises, the runner is invoked
exactly once and the step is marked FAILED immediately; `retry_count`,
`retry_delay_seconds` and `retry_attempts` are never consulted or updated. -/
theorem C7_no_retries_performed :
    retryWf.steps.map (fun s => (s.retry_count, s.retry_delay_seconds)) = [(3, 5)] ∧
    (executeWorkflow boomEnv retryWf {} 2).map
      (fun p => (p.1.runnerLog,
                 p.1.wf.steps.map (fun s => s.status),
                 p.1.wf.steps.map (fun s => s.error_message),
                 p.1.wf.steps.map (fun s => s.retry_attempts))) =
      Option.some (["A"], [StepStatus.failed], [Option.some "boom"], [0]) := by
  exact ⟨rfl, rfl⟩

/-- Counterexample to claim C1 as stated: `oneStepWf` has an acyclic (empty)
dependency graph and its only dispatched step succeeds (and is left
COMPLETED), yet with a cost tracker whose budget ceiling is `0` the
post-batch budget gate fires and the workflow ends FAILED ("Budget
exceeded"), not COMPLETED. -/
theorem C1_counterexample_budget_gate :
    (executeWorkflow okEnv oneStepWf { budget_usd := 0 } 2).map
      (fun p => (p.1.wf.status, p.1.wf.steps.map (fun s => s.status),
                 p.1.wf.error_message, p.1.runnerLog)) =
      Option.some (WorkflowStatus.failed, [StepStatus.completed],
        Option.some budgetMsg, ["A"]) := by
  decide

/-- Counterexample to claim C5 as stated: `cycleWf` contains a cyclic
dependency among its PENDING steps, but because the independent step `C`
raises under `stop_on_failure = true`, the run terminates FAILED with
`workflow.error_message = None` and the step-failure text as the result
error — not with the stuck-workflow error message. -/
theorem C5_counterexample_failure_preempts_stuck :
    (executeWorkflow boomCEnv cycleWf {} 2).map
      (fun p => (p.1.wf.status, p.1.wf.error_message, p.1.error,
                 p.1.wf.steps.map (fun s => s.status))) =
      Option.some (WorkflowStatus.failed, Option.none,
        Option.some "Step C failed: boom",
        [StepStatus.pending, StepStatus.pending, StepStatus.failed]) := by
  exact rfl

/-- Counterexample to claim C6 as stated: step `A`'s runner raises `kaput`
under `stop_on_failure = false` with no other step depending on `A`.  The
sibling `B` still completes and `A` is recorded FAILED with the exception
text — but the result's overall success flag stays `true` (and the workflow
even ends COMPLETED): the failure handler only clears `success` when
`stop_on_failure` is set. -/
theorem C6_counterexample_success_flag_stays_true :
    (executeWorkflow kaputAEnv abWf {} 2).map
      (fun p => (p.1.success, p.1.wf.status,
                 p.1.wf.steps.map (fun s => s.status),
                 p.1.wf.steps.map (fun s => s.error_message),
                 p.1.wf.completed_steps)) =
      Option.some (true, WorkflowStatus.completed,
        [StepStatus.failed, StepStatus.completed],
        [Option.some "kaput", Option.none], 1) := by
  exact rfl

/-- Claim C4: after a batch, if the ledger's cumulative spend is `≥` the
budget ceiling (equality included — `is_over_budget` is `total >= budget`),
the loop exits immediately: the workflow is FAILED with the budget-exceeded
message, the result is failed with the same error, and no further step is
dispatched (the final dispatch log is exactly the log as of that batch) —
independently of `stop_on_failure`, whose exit is only consulted
afterwards. -/
theorem C4_budget_gate_stops_loop (env : AgentEnv) (st : ExecState) (n : Nat)
    (hready : readyIdxs st.wf ≠ [])
    (hover : is_over_budget (runBatch env st (readyIdxs st.wf)).tracker = true) :
    runLoop env (n + 1) st = Option.some (budgetFailState (runBatch env st (readyIdxs st.wf))) ∧
    (runBatch env st (readyIdxs st.wf)).tracker.budget_usd ≤
      get_total_cost (runBatch env st (readyIdxs st.wf)).tracker ∧
    ∀ fin, runLoop env (n + 1) st = Option.some fin →
      fin.wf.status = WorkflowStatus.failed ∧
      fin.wf.error_message = Option.some budgetMsg ∧
      fin.error = Option.some budgetMsg ∧
      fin.dispatchLog = (runBatch env st (readyIdxs st.wf)).dispatchLog := by
  have hb : (readyIdxs st.wf).isEmpty = false := by
    cases h : readyIdxs st.wf with
    | nil => exact absurd h hready
    | cons a t => rfl
  have hiter : runIteration env st =
      IterOut.done (budgetFailState (runBatch env st (readyIdxs st.wf))) := by
    unfold runIteration afterBatch
    rw [hb, hover]
    simp only [Bool.false_eq_true, if_false, if_true]
  have hloop : runLoop env (n + 1) st =
      Option.some (budgetFailState (runBatch env st (readyIdxs st.wf))) := by
    unfold runLoop
    rw [hiter]
  refine ⟨hloop, by simpa [is_over_budget, ge_iff_le] using hover, ?_⟩
  intro fin hfin
  rw [hloop] at hfin
  cases hfin
  exact ⟨rfl, rfl, rfl, rfl⟩

/-- Witness for C4, at the equality boundary: with budget exactly `0.018`
USD, batch 1 (step `A` alone) spends exactly the ceiling; the loop stops with
the budget failure, and `B` — ready for batch 2 — is never dispatched and
stays PENDING. -/
theorem C4_witness :
    get_total_cost (runBatch c4Env (initState c4Wf { budget_usd := 18000000 })
      (readyIdxs (initState c4Wf { budget_usd := 18000000 }).wf)).tracker = 18000000 ∧
    (runLoop c4Env 1 (initState c4Wf { budget_usd := 18000000 })).map
      (fun fin => (fin.wf.status, fin.wf.error_message,
                   fin.dispatchLog.map (fun d => d.step_id),
                   fin.wf.steps.map (fun s => s.status))) =
      Option.some (WorkflowStatus.failed, Option.some budgetMsg, ["A"],
        [StepStatus.completed, StepStatus.pending]) := by
  have h := C4_budget_gate_stops_loop c4Env (initState c4Wf { budget_usd := 18000000 }) 0
    (by decide) (by decide)
  refine ⟨by decide, ?_⟩
  rw [h.1]
  decide

/-- Witness for C10 at a concrete workflow and reference. -/
theorem C10_witness :
    ({ steps := [], inputs := [("goal", Value.vstr "g")] } :
        WorkflowDefinition).resolve_input (Value.vstr "$workflow.target") = Value.vnone := by
  exact (C10_workflow_missing_key_gives_none
    { steps := [], inputs := [("goal", Value.vstr "g")] } "$workflow.target"
    "workflow.target".data "target".data rfl rfl rfl).1

/-! ### Generic list lemmas -/

lemma getD_set_eq {α : Type} (l : List α) (i : Nat) (a d : α) (h : i < l.length) :
    (l.set i a).getD i d = a := by
  induction l generalizing i with
  | nil => simp at h
  | cons x xs ih =>
    cases i with
    | zero => rfl
    | succ n =>
      simp only [List.set]
      rw [show (x :: xs.set n a).getD (n + 1) d = (xs.set n a).getD n d from rfl]
      exact ih n (by simpa using h)

lemma getD_set_ne {α : Type} (l : List α) {i j : Nat} (a : α) (d : α) (h : i ≠ j) :
    (l.set i a).getD j d = l.getD j d := by
  induction l generalizing i j with
  | nil => rfl
  | cons x xs ih =>
    cases i with
    | zero =>
      cases j with
      | zero => exact absurd rfl h
      | succ m => rfl
    | succ n =>
      cases j with
      | zero => rfl
      | succ m =>
        simp only [List.set]
        rw [show (x :: xs.set n a).getD (m + 1) d = (xs.set n a).getD m d from rfl,
          show (x :: xs).getD (m + 1) d = xs.getD m d from rfl]
        exact ih (fun hh => h (by rw [hh]))

lemma getD_mem {α : Type} (l : List α) (i : Nat) (d : α) (h : i < l.length) :
    l.getD i d ∈ l := by
  induction l generalizing i with
  | nil => simp at h
  | cons x xs ih =>
    cases i with
    | zero => exact List.mem_cons_self x xs
    | succ n =>
      rw [show (x :: xs).getD (n + 1) d = xs.getD n d from rfl]
      exact List.mem_cons_of_mem x (ih n (by simpa using h))

lemma getD_map {α β : Type} (f : α → β) (l : List α) (i : Nat) (d : α) :
    (l.map f).getD i (f d) = f (l.getD i d) := by
  induction l generalizing i with
  | nil => rfl
  | cons x xs ih =>
    cases i with
    | zero => rfl
    | succ n =>
      rw [show ((x :: xs).map f).getD (n + 1) (f d) = (xs.map f).getD n (f d) from rfl]
      exact ih n

lemma map_set_skel (l : List WorkflowStep) (i : Nat) (s' : WorkflowStep)
    (h : stepSkel s' = stepSkel (l.getD i default)) :
    (l.set i s').map stepSkel = l.map stepSkel := by
  induction l generalizing i with
  | nil => rfl
  | cons x xs ih =>
    cases i with
    | zero =>
      simp only [List.set, List.map]
      rw [h]
      rfl
    | succ n =>
      simp only [List.set, List.map]
      rw [ih n h]

lemma countP_mono_pointwise {α : Type} (p : α → Bool) (d : α) :
    ∀ (l1 l2 : List α), l1.length = l2.length →
    (∀ i, i < l1.length → p (l2.getD i d) = true → p (l1.getD i d) = true) →
    l2.countP p ≤ l1.countP p := by
  intro l1
  induction l1 with
  | nil =>
    intro l2 hlen _
    cases l2 with
    | nil => exact Nat.le_refl _
    | cons y ys => simp at hlen
  | cons x xs ih =>
    intro l2 hlen hpt
    cases l2 with
    | nil => simp at hlen
    | cons y ys =>
      have h0 := hpt 0 (by simp)
      have htail := ih ys (by simpa using hlen)
        (fun i hi => hpt (i + 1) (by simpa using Nat.succ_lt_succ hi))
      rw [List.countP_cons, List.countP_cons]
      cases hy : p y with
      | true =>
        have hx : p x = true := h0 hy
        simp [hx]
        omega
      | false =>
        cases hx : p x with
        | true => simp; omega
        | false => simp; omega

lemma countP_strict_pointwise {α : Type} (p : α → Bool) (d : α)
    (l1 l2 : List α) (hlen : l1.length = l2.length)
    (hpt : ∀ i, i < l1.length → p (l2.getD i d) = true → p (l1.getD i d) = true)
    (j : Nat) (hj : j < l1.length) (hj1 : p (l1.getD j d) = true)
    (hj2 : p (l2.getD j d) = false) :
    l2.countP p < l1.countP p := by
  induction l1 generalizing l2 j with
  | nil => simp at hj
  | cons x xs ih =>
    cases l2 with
    | nil => simp at hlen
    | cons y ys =>
      rw [List.countP_cons, List.countP_cons]
      cases j with
      | zero =>
        have hx : p x = true := hj1
        have hy : p y = false := hj2
        have htail := countP_mono_pointwise p d xs ys (by simpa using hlen)
          (fun i hi => hpt (i + 1) (by simpa using Nat.succ_lt_succ hi))
        simp [hx, hy]
        omega
      | succ m =>
        have h0 := hpt 0 (by simp)
        have htail := ih ys (by simpa using hlen)
          (fun i hi => hpt (i + 1) (by simpa using Nat.succ_lt_succ hi))
          m (by simpa using hj) hj1 hj2
        cases hy : p y with
        | true =>
          have hx : p x = true := h0 hy
          simp [hx]
          omega
        | false =>
          cases hx : p x with
          | true => simp; omega
          | false => simp; omega

/-! ### Projection lemmas for the state transformers -/

lemma stepAt_updStep_eq (st : ExecState) (i : Nat) (f : WorkflowStep → WorkflowStep)
    (h : i < st.wf.steps.length) : stepAt (updStep st i f) i = f (stepAt st i) := by
  unfold stepAt updStep
  exact getD_set_eq _ _ _ _ h

lemma stepAt_updStep_ne (st : ExecState) {i j : Nat} (f : WorkflowStep → WorkflowStep)
    (h : i ≠ j) : stepAt (updStep st i f) j = stepAt st j := by
  unfold stepAt updStep
  exact getD_set_ne _ _ _ h

lemma updStep_len (st : ExecState) (i : Nat) (f : WorkflowStep → WorkflowStep) :
    (updStep st i f).wf.steps.length = st.wf.steps.length := by
  simp [updStep]

lemma updStep_skel (st : ExecState) (i : Nat) (f : WorkflowStep → WorkflowStep)
    (hf : ∀ s, stepSkel (f s) = stepSkel s) :
    (updStep st i f).wf.steps.map stepSkel = st.wf.steps.map stepSkel := by
  unfold updStep
  exact map_set_skel _ _ _ (hf _)

lemma stepAt_prepBase_eq (st : ExecState) (i : Nat) (h : i < st.wf.steps.length) :
    stepAt (prepBase st i) i = { stepAt st i with status := StepStatus.running } := by
  unfold prepBase
  exact getD_set_eq _ _ _ _ h

lemma stepAt_prepBase_ne (st : ExecState) {i j : Nat} (h : i ≠ j) :
    stepAt (prepBase st i) j = stepAt st j := by
  unfold prepBase
  exact getD_set_ne _ _ _ h

lemma prepBase_len (st : ExecState) (i : Nat) :
    (prepBase st i).wf.steps.length = st.wf.steps.length := by
  simp [prepBase, updStep]

lemma prepBase_skel (st : ExecState) (i : Nat) :
    (prepBase st i).wf.steps.map stepSkel = st.wf.steps.map stepSkel := by
  unfold prepBase
  exact map_set_skel _ _ _ rfl

lemma prepBase_cap (st : ExecState) (i : Nat) :
    (prepBase st i).wf.max_parallel_steps = st.wf.max_parallel_steps := rfl

lemma prepBase_sof (st : ExecState) (i : Nat) :
    (prepBase st i).wf.stop_on_failure = st.wf.stop_on_failure := rfl

lemma prepBase_tracker (st : ExecState) (i : Nat) :
    (prepBase st i).tracker = st.tracker := rfl

lemma prepBase_success (st : ExecState) (i : Nat) :
    (prepBase st i).success = st.success := rfl

lemma prepBase_error (st : ExecState) (i : Nat) :
    (prepBase st i).error = st.error := rfl

lemma prepBase_dispatchLog (st : ExecState) (i : Nat) :
    (prepBase st i).dispatchLog = st.dispatchLog ++
      [{ step_id := (stepAt st i).id, deps_ok := depsMet st.wf (stepAt st i) }] := rfl

lemma prepBase_runnerLog (st : ExecState) (i : Nat) :
    (prepBase st i).runnerLog = st.runnerLog := rfl

lemma prepStep_eq_none (env : AgentEnv) (st : ExecState) (i : Nat)
    (h : List.find? (fun kv => decide (kv.1 = (stepAt st i).agent)) env.agents =
      Option.none) :
    prepStep env st i = (prepBase st i, PendingOutcome.noAgent (stepAt st i).agent) := by
  unfold prepStep
  rw [h]

lemma prepStep_eq_some (env : AgentEnv) (st : ExecState) (i : Nat) (kv : String × String)
    (h : List.find? (fun kv => decide (kv.1 = (stepAt st i).agent)) env.agents =
      Option.some kv) :
    prepStep env st i =
      ({ prepBase st i with
         runnerLog := (prepBase st i).runnerLog ++ [(stepAt st i).id] },
       PendingOutcome.out kv.2 (env.run (stepAt st i).id
         ((stepAt st i).inputs.map (fun p => (p.1, (prepBase st i).wf.resolve_input p.2))))) := by
  unfold prepStep
  rw [h]

/-! Ledger bookkeeping lemmas. -/

lemma check_budget_alerts_core (t : CostTracker) :
    (check_budget_alerts t).budget_usd = t.budget_usd ∧
    (check_budget_alerts t).entries = t.entries := by
  unfold check_budget_alerts
  have key : ∀ (l : List (Nat × Nat)) (acc : CostTracker),
      ((List.foldl (fun acc th =>
        if th ∉ acc.triggered_thresholds ∧
            (if 0 < t.budget_usd then get_total_cost t * th.2 ≥ th.1 * t.budget_usd
             else False) then
          { acc with triggered_thresholds := acc.triggered_thresholds ++ [th],
                     alerts := acc.alerts ++ [th] }
        else acc) acc l).budget_usd = acc.budget_usd ∧
      (List.foldl (fun acc th =>
        if th ∉ acc.triggered_thresholds ∧
            (if 0 < t.budget_usd then get_total_cost t * th.2 ≥ th.1 * t.budget_usd
             else False) then
          { acc with triggered_thresholds := acc.triggered_thresholds ++ [th],
                     alerts := acc.alerts ++ [th] }
        else acc) acc l).entries = acc.entries) := by
    intro l
    induction l with
    | nil => intro acc; exact ⟨rfl, rfl⟩
    | cons th rest ih =>
      intro acc
      rw [List.foldl_cons]
      by_cases hc : th ∉ acc.triggered_thresholds ∧
          (if 0 < t.budget_usd then get_total_cost t * th.2 ≥ th.1 * t.budget_usd
           else False)
      · rw [if_pos hc]
        exact ih _
      · rw [if_neg hc]
        exact ih _
  exact key alertThresholds t

lemma record_budget (t : CostTracker) (m : String) (a b : Nat) :
    (record t m a b).budget_usd = t.budget_usd := by
  unfold record
  rw [(check_budget_alerts_core _).1]

lemma record_total (t : CostTracker) (m : String) (a b : Nat) :
    get_total_cost (record t m a b) = get_total_cost t + calculate_cost m a b := by
  unfold record get_total_cost
  rw [(check_budget_alerts_core _).2]
  simp

lemma calculate_cost_zero (m : String) : calculate_cost m 0 0 = 0 := by
  unfold calculate_cost
  cases List.find? (fun kv => decide (kv.1 = m)) PRICING <;> simp

lemma applyOutcome_stepAt_ne (st : ExecState) {i j : Nat} (po : PendingOutcome)
    (h : i ≠ j) : stepAt (applyOutcome st i po) j = stepAt st j := by
  cases po with
  | noAgent a => rfl
  | out mdl o =>
    cases o with
    | timeout => exact stepAt_updStep_ne st _ h
    | exc m => rfl
    | ok succ out err tok =>
      exact stepAt_updStep_ne _ _ h

lemma applyOutcome_status_eq (st : ExecState) (i : Nat) (h : i < st.wf.steps.length)
    (mdl out : String) (err : Option String) (tok : Nat) (succ : Bool) :
    (stepAt (applyOutcome st i (PendingOutcome.out mdl
        (RunnerOutcome.ok succ out err tok))) i).status =
      (if succ then StepStatus.completed else StepStatus.failed) ∧
    (stepAt (applyOutcome st i (PendingOutcome.out mdl
        (RunnerOutcome.ok succ out err tok))) i).error_message =
      (if succ then (stepAt st i).error_message else err) := by
  rw [show (applyOutcome st i (PendingOutcome.out mdl
      (RunnerOutcome.ok succ out err tok))) = updStep
      { st with tracker := record st.tracker mdl (tok / 2) (tok / 2) } i
      (fun s =>
        { s with result := Value.vstr out,
                 status := if succ then StepStatus.completed else StepStatus.failed,
                 error_message := if succ then s.error_message else err }) from rfl,
    stepAt_updStep_eq { st with tracker := record st.tracker mdl (tok / 2) (tok / 2) } i _ h]
  cases succ <;> exact ⟨rfl, rfl⟩

lemma applyOutcome_len (st : ExecState) (i : Nat) (po : PendingOutcome) :
    (applyOutcome st i po).wf.steps.length = st.wf.steps.length := by
  cases po with
  | noAgent a => rfl
  | out mdl o =>
    cases o with
    | timeout => exact updStep_len st i _
    | exc m => rfl
    | ok succ out err tok =>
      exact updStep_len _ i _

lemma applyOutcome_skel (st : ExecState) (i : Nat) (po : PendingOutcome) :
    (applyOutcome st i po).wf.steps.map stepSkel = st.wf.steps.map stepSkel := by
  cases po with
  | noAgent a => rfl
  | out mdl o =>
    cases o with
    | timeout => exact updStep_skel st i _ (fun s => rfl)
    | exc m => rfl
    | ok succ out err tok =>
      exact updStep_skel _ i _ (fun s => rfl)

lemma applyOutcome_success (st : ExecState) (i : Nat) (po : PendingOutcome) :
    (applyOutcome st i po).success = st.success := by
  cases po with
  | noAgent a => rfl
  | out mdl o => cases o <;> rfl

lemma applyOutcome_error (st : ExecState) (i : Nat) (po : PendingOutcome) :
    (applyOutcome st i po).error = st.error := by
  cases po with
  | noAgent a => rfl
  | out mdl o => cases o <;> rfl

lemma applyOutcome_dispatchLog (st : ExecState) (i : Nat) (po : PendingOutcome) :
    (applyOutcome st i po).dispatchLog = st.dispatchLog := by
  cases po with
  | noAgent a => rfl
  | out mdl o => cases o <;> rfl

lemma applyOutcome_cap (st : ExecState) (i : Nat) (po : PendingOutcome) :
    (applyOutcome st i po).wf.max_parallel_steps = st.wf.max_parallel_steps := by
  cases po with
  | noAgent a => rfl
  | out mdl o => cases o <;> rfl

lemma applyOutcome_sof (st : ExecState) (i : Nat) (po : PendingOutcome) :
    (applyOutcome st i po).wf.stop_on_failure = st.wf.stop_on_failure := by
  cases po with
  | noAgent a => rfl
  | out mdl o => cases o <;> rfl

lemma applyOutcome_budget (st : ExecState) (i : Nat) (po : PendingOutcome) :
    (applyOutcome st i po).tracker.budget_usd = st.tracker.budget_usd := by
  cases po with
  | noAgent a => rfl
  | out mdl o =>
    cases o with
    | timeout => rfl
    | exc m => rfl
    | ok succ out err tok => exact record_budget _ _ _ _

lemma applyOutcome_total_zero (st : ExecState) (i : Nat) (mdl out : String)
    (err : Option String) (succ : Bool) :
    get_total_cost (applyOutcome st i (PendingOutcome.out mdl
      (RunnerOutcome.ok succ out err 0))).tracker = get_total_cost st.tracker := by
  show get_total_cost (record st.tracker mdl (0 / 2) (0 / 2)) = _
  rw [record_total, calculate_cost_zero]
  exact Nat.add_zero _

/-! ### Frame and untouched-index lemmas for the batch phases -/

lemma frameOK_refl (st : ExecState) : frameOK st st := ⟨rfl, rfl, rfl, rfl⟩

lemma frameOK_trans {a b c : ExecState} (h1 : frameOK a b) (h2 : frameOK b c) :
    frameOK a c :=
  ⟨h2.1.trans h1.1, h2.2.1.trans h1.2.1, h2.2.2.1.trans h1.2.2.1,
   h2.2.2.2.trans h1.2.2.2⟩

lemma frame_len {st st' : ExecState} (h : frameOK st st') :
    st'.wf.steps.length = st.wf.steps.length := by
  have := congrArg List.length h.1
  simpa using this

lemma frameOK_prepBase (st : ExecState) (i : Nat) : frameOK st (prepBase st i) :=
  ⟨prepBase_skel st i, rfl, rfl, rfl⟩

lemma frameOK_prepStep (env : AgentEnv) (st : ExecState) (i : Nat) :
    frameOK st (prepStep env st i).1 := by
  cases hf : List.find? (fun kv => decide (kv.1 = (stepAt st i).agent)) env.agents with
  | none =>
    rw [prepStep_eq_none env st i hf]
    exact frameOK_prepBase st i
  | some kv =>
    rw [prepStep_eq_some env st i kv hf]
    exact ⟨prepBase_skel st i, rfl, rfl, rfl⟩

lemma stepAt_prepStep_ne (env : AgentEnv) (st : ExecState) {i j : Nat} (h : i ≠ j) :
    stepAt (prepStep env st i).1 j = stepAt st j := by
  cases hf : List.find? (fun kv => decide (kv.1 = (stepAt st i).agent)) env.agents with
  | none =>
    rw [prepStep_eq_none env st i hf]
    exact stepAt_prepBase_ne st h
  | some kv =>
    rw [prepStep_eq_some env st i kv hf]
    exact stepAt_prepBase_ne st h

lemma frameOK_applyOutcome (st : ExecState) (i : Nat) (po : PendingOutcome) :
    frameOK st (applyOutcome st i po) :=
  ⟨applyOutcome_skel st i po, applyOutcome_cap st i po, applyOutcome_sof st i po,
   applyOutcome_budget st i po⟩

lemma runPhaseA_props (env : AgentEnv) :
    ∀ (ms : List Nat) (st : ExecState),
    frameOK st (runPhaseA env st ms).1 ∧
    ((runPhaseA env st ms).2.map (fun x => x.1)) = ms ∧
    (∀ j, j ∉ ms → stepAt (runPhaseA env st ms).1 j = stepAt st j) := by
  intro ms
  induction ms with
  | nil => intro st; exact ⟨frameOK_refl st, rfl, fun j _ => rfl⟩
  | cons i rest ih =>
    intro st
    obtain ⟨f1, f2, f3⟩ := ih (prepStep env st i).1
    refine ⟨?_, ?_, ?_⟩
    · show frameOK st (runPhaseA env (prepStep env st i).1 rest).1
      exact frameOK_trans (frameOK_prepStep env st i) f1
    · show ((i, (prepStep env st i).2) ::
        (runPhaseA env (prepStep env st i).1 rest).2).map (fun x => x.1) = i :: rest
      simp [f2]
    · intro j hj
      show stepAt (runPhaseA env (prepStep env st i).1 rest).1 j = stepAt st j
      rw [f3 j (fun h => hj (List.mem_cons_of_mem _ h))]
      exact stepAt_prepStep_ne env st (fun h => hj (h ▸ List.mem_cons_self i rest))

lemma runPhaseB_props :
    ∀ (outs : List (Nat × PendingOutcome)) (st : ExecState),
    frameOK st (runPhaseB st outs) ∧
    (∀ j, j ∉ outs.map (fun x => x.1) → stepAt (runPhaseB st outs) j = stepAt st j) := by
  intro outs
  induction outs with
  | nil => intro st; exact ⟨frameOK_refl st, fun j _ => rfl⟩
  | cons x rest ih =>
    intro st
    obtain ⟨i, po⟩ := x
    obtain ⟨f1, f2⟩ := ih (applyOutcome st i po)
    refine ⟨frameOK_trans (frameOK_applyOutcome st i po) f1, ?_⟩
    intro j hj
    rw [show runPhaseB st ((i, po) :: rest) = runPhaseB (applyOutcome st i po) rest
      from rfl]
    rw [f2 j (fun h => hj (by simp; right; simpa using h))]
    exact applyOutcome_stepAt_ne st po (fun h => hj (by simp [h]))

lemma runPhaseC_cons_none (st : ExecState) (i : Nat) (po : PendingOutcome)
    (rest : List (Nat × PendingOutcome)) (hex : excText po = Option.none) :
    runPhaseC st ((i, po) :: rest) = runPhaseC st rest := by
  simp only [runPhaseC]
  rw [hex]

lemma runPhaseC_cons_some (st : ExecState) (i : Nat) (po : PendingOutcome)
    (rest : List (Nat × PendingOutcome)) (m : String) (hex : excText po = Option.some m) :
    runPhaseC st ((i, po) :: rest) =
      (if (updStep st i (markFailed m)).wf.stop_on_failure then
        failWorkflow (updStep st i (markFailed m)) (stepAt st i).id m
      else runPhaseC (updStep st i (markFailed m)) rest) := by
  simp only [runPhaseC]
  rw [hex]

lemma markFailed_skel (m : String) (s : WorkflowStep) :
    stepSkel (markFailed m s) = stepSkel s := rfl

lemma failWorkflow_frame (st : ExecState) (sid m : String) :
    frameOK st (failWorkflow st sid m) := ⟨rfl, rfl, rfl, rfl⟩

lemma failWorkflow_stepAt (st : ExecState) (sid m : String) (j : Nat) :
    stepAt (failWorkflow st sid m) j = stepAt st j := rfl

lemma runPhaseC_props :
    ∀ (outs : List (Nat × PendingOutcome)) (st : ExecState),
    frameOK st (runPhaseC st outs) ∧
    (∀ j, j ∉ outs.map (fun x => x.1) → stepAt (runPhaseC st outs) j = stepAt st j) := by
  intro outs
  induction outs with
  | nil => intro st; exact ⟨frameOK_refl st, fun j _ => rfl⟩
  | cons x rest ih =>
    intro st
    obtain ⟨i, po⟩ := x
    cases hex : excText po with
    | none =>
      rw [runPhaseC_cons_none st i po rest hex]
      obtain ⟨f1, f2⟩ := ih st
      exact ⟨f1, fun j hj => f2 j (fun h => hj (by simp; right; simpa using h))⟩
    | some m =>
      rw [runPhaseC_cons_some st i po rest m hex]
      have hfr : frameOK st (updStep st i (markFailed m)) :=
        ⟨updStep_skel st i _ (fun s => rfl), rfl, rfl, rfl⟩
      have hupd : ∀ j, i ≠ j →
          stepAt (updStep st i (markFailed m)) j = stepAt st j :=
        fun j h => stepAt_updStep_ne st _ h
      by_cases hsof : (updStep st i (markFailed m)).wf.stop_on_failure = true
      · rw [if_pos hsof]
        refine ⟨frameOK_trans hfr (failWorkflow_frame _ _ _), ?_⟩
        intro j hj
        rw [failWorkflow_stepAt]
        exact hupd j (fun h => hj (by simp [h]))
      · rw [if_neg hsof]
        obtain ⟨f1, f2⟩ := ih (updStep st i (markFailed m))
        refine ⟨frameOK_trans hfr f1, ?_⟩
        intro j hj
        rw [f2 j (fun h => hj (by simp; right; simpa using h))]
        exact hupd j (fun h => hj (by simp [h]))

lemma runGroup_props (env : AgentEnv) (st : ExecState) (ms : List Nat) :
    frameOK st (runGroup env st ms) ∧
    (∀ j, j ∉ ms → stepAt (runGroup env st ms) j = stepAt st j) := by
  obtain ⟨a1, a2, a3⟩ := runPhaseA_props env ms st
  obtain ⟨b1, b2⟩ := runPhaseB_props (runPhaseA env st ms).2 (runPhaseA env st ms).1
  obtain ⟨c1, c2⟩ := runPhaseC_props (runPhaseA env st ms).2
    (runPhaseB (runPhaseA env st ms).1 (runPhaseA env st ms).2)
  constructor
  · exact frameOK_trans a1 (frameOK_trans b1 c1)
  · intro j hj
    have hj' : j ∉ (runPhaseA env st ms).2.map (fun x => x.1) := by
      rw [a2]; exact hj
    show stepAt (runPhaseC (runPhaseB (runPhaseA env st ms).1 (runPhaseA env st ms).2)
      (runPhaseA env st ms).2) j = stepAt st j
    rw [c2 j hj', b2 j hj', a3 j hj]

lemma runGroups_props (env : AgentEnv) :
    ∀ (gs : List (String × List Nat)) (st : ExecState),
    frameOK st (runGroups env st gs) ∧
    (∀ j, (∀ g ∈ gs, j ∉ g.2) → stepAt (runGroups env st gs) j = stepAt st j) := by
  intro gs
  induction gs with
  | nil => intro st; exact ⟨frameOK_refl st, fun j _ => rfl⟩
  | cons g rest ih =>
    intro st
    obtain ⟨f1, f2⟩ := ih (runGroup env st g.2)
    obtain ⟨g1, g2⟩ := runGroup_props env st g.2
    refine ⟨?_, ?_⟩
    · show frameOK st (runGroups env (runGroup env st g.2) rest)
      exact frameOK_trans g1 f1
    · intro j hj
      show stepAt (runGroups env (runGroup env st g.2) rest) j = stepAt st j
      rw [f2 j (fun g' hg' => hj g' (List.mem_cons_of_mem _ hg'))]
      exact g2 j (hj g (List.mem_cons_self _ _))

lemma runSeq_guard (env : AgentEnv) (st : ExecState) (i : Nat) (rest : List Nat)
    (hguard : (!st.success && st.wf.stop_on_failure) = true) :
    runSeq env st (i :: rest) = st := by
  simp only [runSeq]
  rw [hguard]
  rfl

lemma runSeq_cons_none (env : AgentEnv) (st : ExecState) (i : Nat) (rest : List Nat)
    (hguard : (!st.success && st.wf.stop_on_failure) = false)
    (hex : excText (prepStep env st i).2 = Option.none) :
    runSeq env st (i :: rest) =
      runSeq env (applyOutcome (prepStep env st i).1 i (prepStep env st i).2) rest := by
  simp only [runSeq]
  rw [hguard, hex]
  rfl

lemma runSeq_cons_some (env : AgentEnv) (st : ExecState) (i : Nat) (rest : List Nat)
    (m : String) (hguard : (!st.success && st.wf.stop_on_failure) = false)
    (hex : excText (prepStep env st i).2 = Option.some m) :
    runSeq env st (i :: rest) =
      (if (updStep (applyOutcome (prepStep env st i).1 i (prepStep env st i).2) i
            (markFailed m)).wf.stop_on_failure then
        failWorkflow
          (updStep (applyOutcome (prepStep env st i).1 i (prepStep env st i).2) i
            (markFailed m))
          (stepAt (applyOutcome (prepStep env st i).1 i (prepStep env st i).2) i).id m
      else
        runSeq env
          (updStep (applyOutcome (prepStep env st i).1 i (prepStep env st i).2) i
            (markFailed m)) rest) := by
  simp only [runSeq]
  rw [hguard, hex]
  rfl

lemma runSeq_props (env : AgentEnv) :
    ∀ (l : List Nat) (st : ExecState),
    frameOK st (runSeq env st l) ∧
    (∀ j, j ∉ l → stepAt (runSeq env st l) j = stepAt st j) := by
  intro l
  induction l with
  | nil => intro st; exact ⟨frameOK_refl st, fun j _ => rfl⟩
  | cons i rest ih =>
    intro st
    have huntouched : ∀ j, i ≠ j →
        stepAt (applyOutcome (prepStep env st i).1 i (prepStep env st i).2) j =
        stepAt st j := by
      intro j h
      rw [applyOutcome_stepAt_ne _ _ h]
      exact stepAt_prepStep_ne env st h
    have hfr : frameOK st (applyOutcome (prepStep env st i).1 i (prepStep env st i).2) :=
      frameOK_trans (frameOK_prepStep env st i)
        (frameOK_applyOutcome (prepStep env st i).1 i (prepStep env st i).2)
    cases hguard : (!st.success && st.wf.stop_on_failure) with
    | true =>
      rw [runSeq_guard env st i rest hguard]
      exact ⟨frameOK_refl st, fun j _ => rfl⟩
    | false =>
      cases hex : excText (prepStep env st i).2 with
      | none =>
        rw [runSeq_cons_none env st i rest hguard hex]
        obtain ⟨f1, f2⟩ := ih (applyOutcome (prepStep env st i).1 i (prepStep env st i).2)
        refine ⟨frameOK_trans hfr f1, ?_⟩
        intro j hj
        rw [f2 j (fun h => hj (List.mem_cons_of_mem _ h))]
        exact huntouched j (fun h => hj (h ▸ List.mem_cons_self i rest))
      | some m =>
        rw [runSeq_cons_some env st i rest m hguard hex]
        have hfr2 : frameOK st
            (updStep (applyOutcome (prepStep env st i).1 i (prepStep env st i).2) i
              (markFailed m)) :=
          frameOK_trans hfr ⟨updStep_skel _ i _ (fun s => rfl), rfl, rfl, rfl⟩
        have hupd2 : ∀ j, i ≠ j →
            stepAt (updStep (applyOutcome (prepStep env st i).1 i
              (prepStep env st i).2) i (markFailed m)) j = stepAt st j := by
          intro j h
          rw [stepAt_updStep_ne _ _ h]
          exact huntouched j h
        by_cases hsof : (updStep (applyOutcome (prepStep env st i).1 i
            (prepStep env st i).2) i (markFailed m)).wf.stop_on_failure = true
        · rw [if_pos hsof]
          refine ⟨frameOK_trans hfr2 (failWorkflow_frame _ _ _), ?_⟩
          intro j hj
          rw [failWorkflow_stepAt]
          exact hupd2 j (fun h => hj (h ▸ List.mem_cons_self i rest))
        · rw [if_neg hsof]
          obtain ⟨f1, f2⟩ := ih (updStep (applyOutcome (prepStep env st i).1 i
            (prepStep env st i).2) i (markFailed m))
          refine ⟨frameOK_trans hfr2 f1, ?_⟩
          intro j hj
          rw [f2 j (fun h => hj (List.mem_cons_of_mem _ h))]
          exact hupd2 j (fun h => hj (h ▸ List.mem_cons_self i rest))

/-! ### `get_step` as an index lookup, readiness, and the batch partition -/

lemma findIdxA_some (p : WorkflowStep → Bool) :
    ∀ (l : List WorkflowStep) (i : Nat), findIdxA p l = Option.some i →
      i < l.length ∧ p (l.getD i default) = true := by
  intro l
  induction l with
  | nil => intro i h; cases h
  | cons x xs ih =>
    intro i h
    by_cases hp : p x = true
    · rw [show findIdxA p (x :: xs) = Option.some 0 by
        simp only [findIdxA]; rw [if_pos hp]] at h
      cases h
      exact ⟨Nat.succ_pos _, hp⟩
    · rw [show findIdxA p (x :: xs) = (findIdxA p xs).map (fun n => n + 1) by
        simp only [findIdxA]; rw [if_neg hp]] at h
      cases hx : findIdxA p xs with
      | none => rw [hx] at h; cases h
      | some n =>
        rw [hx] at h
        cases h
        obtain ⟨h1, h2⟩ := ih n hx
        exact ⟨Nat.succ_lt_succ h1, h2⟩

lemma find?_eq_findIdxA (p : WorkflowStep → Bool) :
    ∀ (l : List WorkflowStep), l.find? p =
      (match findIdxA p l with
       | Option.some i => Option.some (l.getD i default)
       | Option.none => Option.none) := by
  intro l
  induction l with
  | nil => rfl
  | cons x xs ih =>
    by_cases hp : p x = true
    · rw [List.find?_cons_of_pos _ hp,
        show findIdxA p (x :: xs) = Option.some 0 by
          simp only [findIdxA]; rw [if_pos hp]]
      rfl
    · have hp' : p x = false := by
        cases hpp : p x
        · rfl
        · exact absurd hpp hp
      rw [List.find?_cons_of_neg _ (by rw [hp']; exact Bool.false_ne_true),
        show findIdxA p (x :: xs) = (findIdxA p xs).map (fun n => n + 1) by
          simp only [findIdxA]; rw [if_neg hp], ih]
      cases hx : findIdxA p xs with
      | none => rfl
      | some n => rfl

lemma findIdxA_congr (dd : String) :
    ∀ (l1 l2 : List WorkflowStep), l1.map stepSkel = l2.map stepSkel →
    findIdxA (fun s => decide (s.id = dd)) l1 = findIdxA (fun s => decide (s.id = dd)) l2 := by
  intro l1
  induction l1 with
  | nil =>
    intro l2 h
    cases l2 with
    | nil => rfl
    | cons y ys => cases h
  | cons x xs ih =>
    intro l2 h
    cases l2 with
    | nil => cases h
    | cons y ys =>
      simp only [List.map] at h
      have hid : x.id = y.id := congrArg (fun q => q.1) (List.cons.injEq _ _ _ _ ▸ h).1
      have htail := ih ys ((List.cons.injEq _ _ _ _ ▸ h).2)
      simp only [findIdxA]
      simp only [hid, htail]

lemma getStepIdx_congr {w1 w2 : WorkflowDefinition}
    (h : w1.steps.map stepSkel = w2.steps.map stepSkel) (d : String) :
    getStepIdx w1 d = getStepIdx w2 d :=
  findIdxA_congr d w1.steps w2.steps h

lemma getStepIdx_id {wf : WorkflowDefinition} {d : String} {j : Nat}
    (h : getStepIdx wf d = Option.some j) :
    j < wf.steps.length ∧ (wf.steps.getD j default).id = d := by
  obtain ⟨h1, h2⟩ := findIdxA_some _ wf.steps j h
  exact ⟨h1, of_decide_eq_true h2⟩

lemma get_step_eq_idx (wf : WorkflowDefinition) (d : String) :
    wf.get_step d =
      (match getStepIdx wf d with
       | Option.some i => Option.some (wf.steps.getD i default)
       | Option.none => Option.none) := by
  unfold WorkflowDefinition.get_step getStepIdx
  exact find?_eq_findIdxA _ wf.steps

lemma depsMet_idx_iff (wf : WorkflowDefinition) (s : WorkflowStep) :
    depsMet wf s = true ↔
      ∀ d ∈ s.depends_on, ∀ j, getStepIdx wf d = Option.some j →
        (wf.steps.getD j default).status = StepStatus.completed := by
  rw [depsMet_iff]
  constructor
  · intro h d hd j hj
    refine h d hd _ ?_
    rw [get_step_eq_idx, hj]
  · intro h d hd t ht
    rw [get_step_eq_idx] at ht
    cases hj : getStepIdx wf d with
    | none => rw [hj] at ht; cases ht
    | some j =>
      rw [hj] at ht
      cases ht
      exact h d hd j hj

lemma mem_readyIdxs (wf : WorkflowDefinition) (i : Nat) :
    i ∈ readyIdxs wf ↔
      i < wf.steps.length ∧ (wf.steps.getD i default).status = StepStatus.pending ∧
      depsMet wf (wf.steps.getD i default) = true := by
  unfold readyIdxs
  rw [List.mem_filter, List.mem_range, Bool.and_eq_true, decide_eq_true_iff]

lemma addToGroups_flat (gs : List (String × List Nat)) (g : String) (i x : Nat) :
    (x ∈ ((addToGroups gs g i).map (fun p => p.2)).flatten) ↔
      x ∈ (gs.map (fun p => p.2)).flatten ∨ x = i := by
  induction gs with
  | nil => simp [addToGroups]
  | cons kv rest ih =>
    by_cases hk : kv.1 = g
    · rw [show addToGroups (kv :: rest) g i = (kv.1, kv.2 ++ [i]) :: rest by
        simp only [addToGroups]; rw [if_pos hk]]
      simp only [List.map_cons, List.flatten_cons, List.mem_append, List.mem_singleton]
      tauto
    · rw [show addToGroups (kv :: rest) g i = (kv.1, kv.2) :: addToGroups rest g i by
        simp only [addToGroups]; rw [if_neg hk]]
      simp only [List.map_cons, List.flatten_cons, List.mem_append, ih]
      tauto

lemma partitionReady_flat (wf : WorkflowDefinition) (r : List Nat) (x : Nat) :
    x ∈ bucketsFlat (partitionReady wf r) ↔ x ∈ r := by
  unfold partitionReady
  have key : ∀ (l : List Nat) (acc : List (String × List Nat) × List Nat),
      (x ∈ bucketsFlat (l.foldl (fun acc i =>
        match pgroupOf (wf.steps.getD i default) with
        | Option.some g => (addToGroups acc.1 g i, acc.2)
        | Option.none => (acc.1, acc.2 ++ [i])) acc) ↔
      x ∈ bucketsFlat acc ∨ x ∈ l) := by
    intro l
    induction l with
    | nil => intro acc; simp
    | cons i rest ih =>
      intro acc
      rw [List.foldl_cons]
      cases hpg : pgroupOf (wf.steps.getD i default) with
      | none =>
        rw [ih]
        unfold bucketsFlat
        simp only [List.mem_append, List.mem_singleton, List.mem_cons]
        tauto
      | some g =>
        rw [ih]
        unfold bucketsFlat
        simp only [List.mem_append, List.mem_cons, addToGroups_flat]
        tauto
  rw [key r ([], [])]
  simp [bucketsFlat]

/-! ### Claim C3: dependencies are COMPLETED at every dispatch -/

lemma prepStep_dispatchLog (env : AgentEnv) (st : ExecState) (i : Nat) :
    (prepStep env st i).1.dispatchLog = st.dispatchLog ++
      [{ step_id := (stepAt st i).id, deps_ok := depsMet st.wf (stepAt st i) }] := by
  cases hf : List.find? (fun kv => decide (kv.1 = (stepAt st i).agent)) env.agents with
  | none => rw [prepStep_eq_none env st i hf]; rfl
  | some kv => rw [prepStep_eq_some env st i kv hf]; rfl

lemma dispatch_ok (st0 st : ExecState) (i : Nat)
    (hkeep : keepsCompleted st0 st)
    (hskel : st.wf.steps.map stepSkel = st0.wf.steps.map stepSkel)
    (hready : i ∈ readyIdxs st0.wf) :
    depsMet st.wf (stepAt st i) = true := by
  obtain ⟨hlen, hpend, hdeps⟩ := (mem_readyIdxs st0.wf i).mp hready
  have hskl_i : stepSkel (stepAt st i) = stepSkel (stepAt st0 i) := by
    have h := congrArg (fun l => l.getD i (stepSkel default)) hskel
    simp only [getD_map] at h
    exact h
  have hdeps_eq : (stepAt st i).depends_on = (stepAt st0 i).depends_on :=
    congrArg (fun q => q.2.2.1) hskl_i
  rw [depsMet_idx_iff]
  intro d hd j hj
  rw [getStepIdx_congr hskel d] at hj
  have hc : (st0.wf.steps.getD j default).status = StepStatus.completed := by
    have hm := (depsMet_idx_iff st0.wf (stepAt st0 i)).mp hdeps
    exact hm d (hdeps_eq ▸ hd) j hj
  exact hkeep j hc

lemma keeps_through_write (st0 : ExecState) {st st' : ExecState} (i : Nat)
    (hpend : (stepAt st0 i).status = StepStatus.pending)
    (hkeep : keepsCompleted st0 st)
    (hwrite : ∀ j, i ≠ j → stepAt st' j = stepAt st j) :
    keepsCompleted st0 st' := by
  intro j hc
  by_cases hij : i = j
  · subst hij
    rw [hpend] at hc
    cases hc
  · rw [hwrite j hij]
    exact hkeep j hc

lemma runPhaseA_c3 (env : AgentEnv) (st0 : ExecState) :
    ∀ (ms : List Nat) (st : ExecState),
    keepsCompleted st0 st →
    st.wf.steps.map stepSkel = st0.wf.steps.map stepSkel →
    logOk st →
    (∀ i ∈ ms, i ∈ readyIdxs st0.wf) →
    keepsCompleted st0 (runPhaseA env st ms).1 ∧ logOk (runPhaseA env st ms).1 := by
  intro ms
  induction ms with
  | nil => intro st hkeep _ hlog _; exact ⟨hkeep, hlog⟩
  | cons i rest ih =>
    intro st hkeep hskel hlog hms
    have hready := hms i (List.mem_cons_self i rest)
    have hpend : (stepAt st0 i).status = StepStatus.pending :=
      ((mem_readyIdxs st0.wf i).mp hready).2.1
    have hkeep1 : keepsCompleted st0 (prepStep env st i).1 :=
      keeps_through_write st0 i hpend hkeep (fun j h => stepAt_prepStep_ne env st h)
    have hskel1 : (prepStep env st i).1.wf.steps.map stepSkel =
        st0.wf.steps.map stepSkel := (frameOK_prepStep env st i).1.trans hskel
    have hlog1 : logOk (prepStep env st i).1 := by
      intro e he
      rw [prepStep_dispatchLog env st i] at he
      rcases List.mem_append.mp he with h | h
      · exact hlog e h
      · rw [List.mem_singleton] at h
        subst h
        exact dispatch_ok st0 st i hkeep hskel hready
    show keepsCompleted st0 (runPhaseA env (prepStep env st i).1 rest).1 ∧
      logOk (runPhaseA env (prepStep env st i).1 rest).1
    exact ih (prepStep env st i).1 hkeep1 hskel1 hlog1
      (fun j hj => hms j (List.mem_cons_of_mem _ hj))

lemma runPhaseB_dispatchLog :
    ∀ (outs : List (Nat × PendingOutcome)) (st : ExecState),
    (runPhaseB st outs).dispatchLog = st.dispatchLog := by
  intro outs
  induction outs with
  | nil => intro st; rfl
  | cons x rest ih =>
    intro st
    obtain ⟨i, po⟩ := x
    show (runPhaseB (applyOutcome st i po) rest).dispatchLog = st.dispatchLog
    rw [ih (applyOutcome st i po), applyOutcome_dispatchLog]

lemma runPhaseB_c3 (st0 : ExecState) :
    ∀ (outs : List (Nat × PendingOutcome)) (st : ExecState),
    keepsCompleted st0 st →
    (∀ e ∈ outs, e.1 ∈ readyIdxs st0.wf) →
    keepsCompleted st0 (runPhaseB st outs) := by
  intro outs
  induction outs with
  | nil => intro st hkeep _; exact hkeep
  | cons x rest ih =>
    intro st hkeep houts
    obtain ⟨i, po⟩ := x
    have hpend : (stepAt st0 i).status = StepStatus.pending :=
      ((mem_readyIdxs st0.wf i).mp (houts (i, po) (List.mem_cons_self _ _))).2.1
    show keepsCompleted st0 (runPhaseB (applyOutcome st i po) rest)
    exact ih (applyOutcome st i po)
      (keeps_through_write st0 i hpend hkeep
        (fun j h => applyOutcome_stepAt_ne st po h))
      (fun e he => houts e (List.mem_cons_of_mem _ he))

lemma runPhaseC_dispatchLog :
    ∀ (outs : List (Nat × PendingOutcome)) (st : ExecState),
    (runPhaseC st outs).dispatchLog = st.dispatchLog := by
  intro outs
  induction outs with
  | nil => intro st; rfl
  | cons x rest ih =>
    intro st
    obtain ⟨i, po⟩ := x
    cases hex : excText po with
    | none => rw [runPhaseC_cons_none st i po rest hex, ih st]
    | some m =>
      rw [runPhaseC_cons_some st i po rest m hex]
      by_cases hsof : (updStep st i (markFailed m)).wf.stop_on_failure = true
      · rw [if_pos hsof]; rfl
      · rw [if_neg hsof, ih]; rfl

lemma runPhaseC_c3 (st0 : ExecState) :
    ∀ (outs : List (Nat × PendingOutcome)) (st : ExecState),
    keepsCompleted st0 st →
    (∀ e ∈ outs, e.1 ∈ readyIdxs st0.wf) →
    keepsCompleted st0 (runPhaseC st outs) := by
  intro outs
  induction outs with
  | nil => intro st hkeep _; exact hkeep
  | cons x rest ih =>
    intro st hkeep houts
    obtain ⟨i, po⟩ := x
    cases hex : excText po with
    | none =>
      rw [runPhaseC_cons_none st i po rest hex]
      exact ih st hkeep (fun e he => houts e (List.mem_cons_of_mem _ he))
    | some m =>
      rw [runPhaseC_cons_some st i po rest m hex]
      have hpend : (stepAt st0 i).status = StepStatus.pending :=
        ((mem_readyIdxs st0.wf i).mp (houts (i, po) (List.mem_cons_self _ _))).2.1
      have hkeep1 : keepsCompleted st0 (updStep st i (markFailed m)) :=
        keeps_through_write st0 i hpend hkeep
          (fun j h => stepAt_updStep_ne st _ h)
      by_cases hsof : (updStep st i (markFailed m)).wf.stop_on_failure = true
      · rw [if_pos hsof]
        intro j hc
        rw [failWorkflow_stepAt]
        exact hkeep1 j hc
      · rw [if_neg hsof]
        exact ih _ hkeep1 (fun e he => houts e (List.mem_cons_of_mem _ he))

lemma runGroup_c3 (env : AgentEnv) (st0 : ExecState) (ms : List Nat) (st : ExecState)
    (hkeep : keepsCompleted st0 st)
    (hskel : st.wf.steps.map stepSkel = st0.wf.steps.map stepSkel)
    (hlog : logOk st)
    (hms : ∀ i ∈ ms, i ∈ readyIdxs st0.wf) :
    keepsCompleted st0 (runGroup env st ms) ∧
    (runGroup env st ms).wf.steps.map stepSkel = st0.wf.steps.map stepSkel ∧
    logOk (runGroup env st ms) := by
  obtain ⟨hkA, hlA⟩ := runPhaseA_c3 env st0 ms st hkeep hskel hlog hms
  have hfsts := (runPhaseA_props env ms st).2.1
  have houts : ∀ e ∈ (runPhaseA env st ms).2, e.1 ∈ readyIdxs st0.wf := by
    intro e he
    refine hms e.1 ?_
    rw [← hfsts]
    exact List.mem_map_of_mem (fun x => x.1) he
  have hkB := runPhaseB_c3 st0 (runPhaseA env st ms).2 (runPhaseA env st ms).1 hkA houts
  have hkC := runPhaseC_c3 st0 (runPhaseA env st ms).2
    (runPhaseB (runPhaseA env st ms).1 (runPhaseA env st ms).2) hkB houts
  refine ⟨hkC, ?_, ?_⟩
  · exact (runGroup_props env st ms).1.1.trans hskel
  · show logOk (runPhaseC (runPhaseB (runPhaseA env st ms).1 (runPhaseA env st ms).2)
      (runPhaseA env st ms).2)
    intro e he
    rw [runPhaseC_dispatchLog, runPhaseB_dispatchLog] at he
    exact hlA e he

lemma runGroups_c3 (env : AgentEnv) (st0 : ExecState) :
    ∀ (gs : List (String × List Nat)) (st : ExecState),
    keepsCompleted st0 st →
    st.wf.steps.map stepSkel = st0.wf.steps.map stepSkel →
    logOk st →
    (∀ g ∈ gs, ∀ i ∈ g.2, i ∈ readyIdxs st0.wf) →
    keepsCompleted st0 (runGroups env st gs) ∧
    (runGroups env st gs).wf.steps.map stepSkel = st0.wf.steps.map stepSkel ∧
    logOk (runGroups env st gs) := by
  intro gs
  induction gs with
  | nil => intro st hkeep hskel hlog _; exact ⟨hkeep, hskel, hlog⟩
  | cons g rest ih =>
    intro st hkeep hskel hlog hgs
    obtain ⟨hk1, hs1, hl1⟩ := runGroup_c3 env st0 g.2 st hkeep hskel hlog
      (hgs g (List.mem_cons_self _ _))
    show keepsCompleted st0 (runGroups env (runGroup env st g.2) rest) ∧ _
    exact ih (runGroup env st g.2) hk1 hs1 hl1
      (fun g' hg' => hgs g' (List.mem_cons_of_mem _ hg'))

lemma runSeq_c3 (env : AgentEnv) (st0 : ExecState) :
    ∀ (l : List Nat) (st : ExecState),
    keepsCompleted st0 st →
    st.wf.steps.map stepSkel = st0.wf.steps.map stepSkel →
    logOk st →
    (∀ i ∈ l, i ∈ readyIdxs st0.wf) →
    keepsCompleted st0 (runSeq env st l) ∧
    (runSeq env st l).wf.steps.map stepSkel = st0.wf.steps.map stepSkel ∧
    logOk (runSeq env st l) := by
  intro l
  induction l with
  | nil => intro st hkeep hskel hlog _; exact ⟨hkeep, hskel, hlog⟩
  | cons i rest ih =>
    intro st hkeep hskel hlog hl
    have hready := hl i (List.mem_cons_self i rest)
    have hpend : (stepAt st0 i).status = StepStatus.pending :=
      ((mem_readyIdxs st0.wf i).mp hready).2.1
    cases hguard : (!st.success && st.wf.stop_on_failure) with
    | true =>
      rw [runSeq_guard env st i rest hguard]
      exact ⟨hkeep, hskel, hlog⟩
    | false =>
      have hkeepA : keepsCompleted st0
          (applyOutcome (prepStep env st i).1 i (prepStep env st i).2) := by
        refine keeps_through_write st0 i hpend hkeep ?_
        intro j h
        rw [applyOutcome_stepAt_ne _ _ h]
        exact stepAt_prepStep_ne env st h
      have hskelA : (applyOutcome (prepStep env st i).1 i
          (prepStep env st i).2).wf.steps.map stepSkel = st0.wf.steps.map stepSkel := by
        rw [applyOutcome_skel, (frameOK_prepStep env st i).1, hskel]
      have hlogA : logOk (applyOutcome (prepStep env st i).1 i (prepStep env st i).2) := by
        intro e he
        rw [applyOutcome_dispatchLog, prepStep_dispatchLog env st i] at he
        rcases List.mem_append.mp he with h | h
        · exact hlog e h
        · rw [List.mem_singleton] at h
          subst h
          exact dispatch_ok st0 st i hkeep hskel hready
      cases hex : excText (prepStep env st i).2 with
      | none =>
        rw [runSeq_cons_none env st i rest hguard hex]
        exact ih _ hkeepA hskelA hlogA (fun j hj => hl j (List.mem_cons_of_mem _ hj))
      | some m =>
        rw [runSeq_cons_some env st i rest m hguard hex]
        have hkeepU : keepsCompleted st0
            (updStep (applyOutcome (prepStep env st i).1 i (prepStep env st i).2) i
              (markFailed m)) :=
          keeps_through_write st0 i hpend hkeepA (fun j h => stepAt_updStep_ne _ _ h)
        have hskelU : (updStep (applyOutcome (prepStep env st i).1 i
            (prepStep env st i).2) i (markFailed m)).wf.steps.map stepSkel =
            st0.wf.steps.map stepSkel := by
          rw [updStep_skel _ i (markFailed m) (markFailed_skel m)]
          exact hskelA
        have hlogU : logOk (updStep (applyOutcome (prepStep env st i).1 i
            (prepStep env st i).2) i (markFailed m)) := hlogA
        by_cases hsof : (updStep (applyOutcome (prepStep env st i).1 i
            (prepStep env st i).2) i (markFailed m)).wf.stop_on_failure = true
        · rw [if_pos hsof]
          refine ⟨?_, hskelU, hlogU⟩
          intro j hc
          rw [failWorkflow_stepAt]
          exact hkeepU j hc
        · rw [if_neg hsof]
          exact ih _ hkeepU hskelU hlogU (fun j hj => hl j (List.mem_cons_of_mem _ hj))

lemma runBatch_c3 (env : AgentEnv) (st : ExecState) (hlog : logOk st) :
    logOk (runBatch env st (readyIdxs st.wf)) := by
  unfold runBatch
  have hgs : ∀ g ∈ (partitionReady st.wf (readyIdxs st.wf)).1, ∀ i ∈ g.2,
      i ∈ readyIdxs st.wf := by
    intro g hg i hi
    rw [← partitionReady_flat st.wf (readyIdxs st.wf) i]
    unfold bucketsFlat
    refine List.mem_append.mpr (Or.inl ?_)
    rw [List.mem_flatten]
    exact ⟨g.2, List.mem_map_of_mem (fun p => p.2) hg, hi⟩
  obtain ⟨hkG, hsG, hlG⟩ := runGroups_c3 env st
    (partitionReady st.wf (readyIdxs st.wf)).1 st (fun j hc => hc) rfl hlog hgs
  have hseq : ∀ i ∈ (partitionReady st.wf (readyIdxs st.wf)).2.take
      (runGroups env st (partitionReady st.wf (readyIdxs st.wf)).1).wf.max_parallel_steps,
      i ∈ readyIdxs st.wf := by
    intro i hi
    have hi2 := List.mem_of_mem_take hi
    rw [← partitionReady_flat st.wf (readyIdxs st.wf) i]
    unfold bucketsFlat
    exact List.mem_append.mpr (Or.inr hi2)
  exact (runSeq_c3 env st _ (runGroups env st _) hkG hsG hlG hseq).2.2

lemma stuckFailState_dispatchLog (st : ExecState) :
    (stuckFailState st).dispatchLog = st.dispatchLog := rfl

lemma budgetFailState_dispatchLog (st : ExecState) :
    (budgetFailState st).dispatchLog = st.dispatchLog := rfl

lemma runIteration_logOk (env : AgentEnv) (st : ExecState) (hlog : logOk st) :
    logOk (runIteration env st).state := by
  unfold runIteration
  by_cases h1 : (readyIdxs st.wf).isEmpty = true
  · rw [if_pos h1]
    by_cases h2 : (st.wf.steps.filter
        (fun s => decide (s.status = StepStatus.pending))).isEmpty = true
    · rw [if_pos h2]; exact hlog
    · rw [if_neg h2]
      by_cases h3 : (st.wf.steps.filter
          (fun s => decide (s.status = StepStatus.running))).isEmpty = true
      · rw [if_pos h3]
        intro e he
        rw [IterOut.state, stuckFailState_dispatchLog] at he
        exact hlog e he
      · rw [if_neg h3]; exact hlog
  · rw [if_neg h1]
    have hbatch := runBatch_c3 env st hlog
    unfold afterBatch
    by_cases hb : is_over_budget (runBatch env st (readyIdxs st.wf)).tracker = true
    · rw [if_pos hb]
      intro e he
      rw [IterOut.state, budgetFailState_dispatchLog] at he
      exact hbatch e he
    · rw [if_neg hb]
      by_cases hs : (!(runBatch env st (readyIdxs st.wf)).success) = true
      · rw [if_pos hs]; exact hbatch
      · rw [if_neg hs]; exact hbatch

lemma runLoop_logOk (env : AgentEnv) :
    ∀ (fuel : Nat) (st : ExecState), logOk st →
    ∀ fin, runLoop env fuel st = Option.some fin → logOk fin := by
  intro fuel
  induction fuel with
  | zero => intro st _ fin h; cases h
  | succ n ih =>
    intro st hlog fin h
    rw [show runLoop env (n + 1) st =
      (match runIteration env st with
       | IterOut.done st' => Option.some st'
       | IterOut.again st' => runLoop env n st') from rfl] at h
    have hit := runIteration_logOk env st hlog
    cases hcase : runIteration env st with
    | done st' =>
      rw [hcase] at h
      cases h
      rw [hcase] at hit
      exact hit
    | again st' =>
      rw [hcase] at h
      rw [hcase] at hit
      exact ih st' hit fin h

lemma aggregateStep_core (acc : ExecState) (s : WorkflowStep) :
    (aggregateStep acc s).wf = acc.wf ∧ (aggregateStep acc s).success = acc.success ∧
    (aggregateStep acc s).dispatchLog = acc.dispatchLog ∧
    (aggregateStep acc s).runnerLog = acc.runnerLog ∧
    (aggregateStep acc s).error = acc.error ∧
    (aggregateStep acc s).tracker = acc.tracker := by
  unfold aggregateStep
  by_cases h1 : pyTruthy (Value.vlist s.findings) = true <;>
    by_cases h2 : pyTruthy s.change_plan = true <;>
    by_cases h3 : pyTruthy s.eval_result = true <;>
    simp [h1, h2, h3]

lemma aggregateFold_core :
    ∀ (l : List WorkflowStep) (acc : ExecState),
    (l.foldl aggregateStep acc).wf = acc.wf ∧
    (l.foldl aggregateStep acc).success = acc.success ∧
    (l.foldl aggregateStep acc).dispatchLog = acc.dispatchLog ∧
    (l.foldl aggregateStep acc).runnerLog = acc.runnerLog ∧
    (l.foldl aggregateStep acc).error = acc.error ∧
    (l.foldl aggregateStep acc).tracker = acc.tracker := by
  intro l
  induction l with
  | nil => intro acc; exact ⟨rfl, rfl, rfl, rfl, rfl, rfl⟩
  | cons s rest ih =>
    intro acc
    rw [List.foldl_cons]
    obtain ⟨a1, a2, a3, a4, a5, a6⟩ := aggregateStep_core acc s
    obtain ⟨b1, b2, b3, b4, b5, b6⟩ := ih (aggregateStep acc s)
    exact ⟨b1.trans a1, b2.trans a2, b3.trans a3, b4.trans a4, b5.trans a5, b6.trans a6⟩

lemma finishWorkflow_core (st : ExecState) :
    (finishWorkflow st).wf.steps = st.wf.steps ∧
    (finishWorkflow st).success = st.success ∧
    (finishWorkflow st).dispatchLog = st.dispatchLog ∧
    (finishWorkflow st).runnerLog = st.runnerLog ∧
    (finishWorkflow st).error = st.error ∧
    (finishWorkflow st).wf.status =
      (if st.success = true then WorkflowStatus.completed else st.wf.status) ∧
    (finishWorkflow st).wf.error_message = st.wf.error_message := by
  unfold finishWorkflow
  obtain ⟨a1, a2, a3, a4, a5, a6⟩ := aggregateFold_core st.wf.steps st
  by_cases hs : (st.wf.steps.foldl aggregateStep st).success = true
  · rw [if_pos hs]
    rw [a2] at hs
    refine ⟨by rw [show ({ st.wf.steps.foldl aggregateStep st with
        wf := { (st.wf.steps.foldl aggregateStep st).wf with
          status := WorkflowStatus.completed } } : ExecState).wf.steps =
        (st.wf.steps.foldl aggregateStep st).wf.steps from rfl, a1], ?_, ?_, ?_, ?_, ?_, ?_⟩
    · exact a2
    · exact a3
    · exact a4
    · exact a5
    · rw [if_pos hs]
    · rw [show ({ st.wf.steps.foldl aggregateStep st with
        wf := { (st.wf.steps.foldl aggregateStep st).wf with
          status := WorkflowStatus.completed } } : ExecState).wf.error_message =
        (st.wf.steps.foldl aggregateStep st).wf.error_message from rfl, a1]
  · rw [if_neg hs]
    rw [a2] at hs
    have hs' : st.success = false := by
      cases h : st.success
      · rfl
      · exact absurd h hs
    refine ⟨by rw [a1], a2, a3, a4, a5, ?_, by rw [a1]⟩
    rw [if_neg (by rw [hs']; exact Bool.false_ne_true), a1]

/-- Claim C3: throughout any terminating run of `execute_workflow`, a step is
never dispatched (passed to `_execute_step`) before every step id in its
`depends_on` that names an existing step has status COMPLETED: every entry of
the dispatch log was recorded with its dependency check true. -/
theorem C3_never_dispatched_before_deps_completed (env : AgentEnv)
    (wf : WorkflowDefinition) (tracker : CostTracker) (fuel : Nat)
    (fin : ExecState) (exc : Except String Unit)
    (h : executeWorkflow env wf tracker fuel = Option.some (fin, exc)) :
    ∀ e ∈ fin.dispatchLog, e.deps_ok = true := by
  unfold executeWorkflow at h
  cases hl : runLoop env fuel (initState wf tracker) with
  | none => rw [hl] at h; cases h
  | some st =>
    rw [hl] at h
    cases h
    have hlog := runLoop_logOk env fuel (initState wf tracker)
      (fun e he => absurd he (List.not_mem_nil e)) st hl
    intro e he
    rw [(finishWorkflow_core st).2.2.1] at he
    exact hlog e he

/-- Witness for C3: the `§8` diamond workflow runs to completion and every
recorded dispatch had its dependencies COMPLETED. -/
theorem C3_witness :
    (executeWorkflow okEnv spec8Wf {} 10).map
      (fun p => (p.1.dispatchLog.map (fun d => d.step_id),
                 p.1.dispatchLog.all (fun d => d.deps_ok))) =
      Option.some (["A", "C", "D", "B"], true) := by
  have hex : ∃ fin exc, executeWorkflow okEnv spec8Wf {} 10 = Option.some (fin, exc) :=
    ⟨_, _, rfl⟩
  obtain ⟨fin, exc, hp⟩ := hex
  have h3 := C3_never_dispatched_before_deps_completed okEnv spec8Wf {} 10 fin exc hp
  rw [hp]
  have hall : fin.dispatchLog.all (fun d => d.deps_ok) = true :=
    List.all_eq_true.mpr (fun e he => h3 e he)
  have hids : fin.dispatchLog.map (fun d => d.step_id) = ["A", "C", "D", "B"] := by
    have : (executeWorkflow okEnv spec8Wf {} 10).map
        (fun p => p.1.dispatchLog.map (fun d => d.step_id)) =
        Option.some (["A", "C", "D", "B"]) := by decide
    rw [hp] at this
    simpa using this
  simp [hall, hids]

lemma exists_min_key (l : List Nat) (hl : l ≠ []) (key : Nat → Nat) :
    ∃ i ∈ l, ∀ j ∈ l, key i ≤ key j := by
  induction l with
  | nil => exact absurd rfl hl
  | cons x xs ih =>
    cases hxs : xs with
    | nil =>
      refine ⟨x, List.mem_cons_self x [], ?_⟩
      intro j hj
      rw [List.mem_singleton] at hj
      rw [hj]
    | cons y ys =>
      obtain ⟨i, hi, hmin⟩ := ih (by rw [hxs]; exact List.cons_ne_nil y ys)
      rw [← hxs] at *
      by_cases hcmp : key x ≤ key i
      · refine ⟨x, List.mem_cons_self x xs, ?_⟩
        intro j hj
        rcases List.mem_cons.mp hj with hj | hj
        · rw [hj]
        · exact Nat.le_trans hcmp (hmin j hj)
      · refine ⟨i, List.mem_cons_of_mem x hi, ?_⟩
        intro j hj
        rcases List.mem_cons.mp hj with hj | hj
        · rw [hj]
          exact Nat.le_of_lt (Nat.lt_of_not_le hcmp)
        · exact hmin j hj

/-! ### Clean runs: the effect of one batch under `RunSpec` (C1, C5, C6) -/

lemma prepStep_tracker (env : AgentEnv) (st : ExecState) (i : Nat) :
    (prepStep env st i).1.tracker = st.tracker := by
  cases hf : List.find? (fun kv => decide (kv.1 = (stepAt st i).agent)) env.agents with
  | none => rw [prepStep_eq_none env st i hf]; rfl
  | some kv => rw [prepStep_eq_some env st i kv hf]; rfl

lemma prepStep_success (env : AgentEnv) (st : ExecState) (i : Nat) :
    (prepStep env st i).1.success = st.success := by
  cases hf : List.find? (fun kv => decide (kv.1 = (stepAt st i).agent)) env.agents with
  | none => rw [prepStep_eq_none env st i hf]; rfl
  | some kv => rw [prepStep_eq_some env st i kv hf]; rfl

lemma skel_at_of_map {st : ExecState} {wf0 : WorkflowDefinition}
    (hskel : st.wf.steps.map stepSkel = wf0.steps.map stepSkel) (i : Nat) :
    stepSkel (stepAt st i) = stepSkel (wf0.steps.getD i default) := by
  have h := congrArg (fun l => l.getD i (stepSkel default)) hskel
  simp only [getD_map] at h
  exact h

lemma len_of_skel {st : ExecState} {wf0 : WorkflowDefinition}
    (hskel : st.wf.steps.map stepSkel = wf0.steps.map stepSkel) :
    st.wf.steps.length = wf0.steps.length := by
  have h := congrArg List.length hskel
  simpa using h

lemma prep_outcome_clean {env : AgentEnv} {wf0 : WorkflowDefinition}
    {fails : String → Bool} {em outp : String → String}
    (hRS : RunSpec env wf0 fails em outp) (st : ExecState) (i : Nat)
    (hskel : st.wf.steps.map stepSkel = wf0.steps.map stepSkel)
    (hlen : i < st.wf.steps.length) :
    ∃ mdl, (prepStep env st i).2 =
      PendingOutcome.out mdl (cleanOut wf0 fails em outp i) := by
  have hsk := skel_at_of_map hskel i
  have hid : (stepAt st i).id = (wf0.steps.getD i default).id :=
    congrArg (fun q => q.1) hsk
  have hag : (stepAt st i).agent = (wf0.steps.getD i default).agent :=
    congrArg (fun q => q.2.1) hsk
  have hlen0 : i < wf0.steps.length := len_of_skel hskel ▸ hlen
  have hmem : wf0.steps.getD i default ∈ wf0.steps := getD_mem _ _ _ hlen0
  have hfound := hRS.agents_found _ hmem
  rw [Option.isSome_iff_exists] at hfound
  obtain ⟨kv, hkv⟩ := hfound
  have hkv' : List.find? (fun kv => decide (kv.1 = (stepAt st i).agent)) env.agents =
      Option.some kv := by rw [hag]; exact hkv
  refine ⟨kv.2, ?_⟩
  rw [prepStep_eq_some env st i kv hkv']
  show PendingOutcome.out kv.2 _ = _
  rw [hid, hRS.run_eq _ hmem]
  rfl

lemma runPhaseA_clean {env : AgentEnv} {wf0 : WorkflowDefinition}
    {fails : String → Bool} {em outp : String → String}
    (hRS : RunSpec env wf0 fails em outp) :
    ∀ (ms : List Nat) (st : ExecState),
    st.wf.steps.map stepSkel = wf0.steps.map stepSkel →
    (∀ i ∈ ms, i < wf0.steps.length) →
    outsClean wf0 fails em outp (runPhaseA env st ms).2 ∧
    (runPhaseA env st ms).1.tracker = st.tracker ∧
    (runPhaseA env st ms).1.success = st.success := by
  intro ms
  induction ms with
  | nil =>
    intro st _ _
    exact ⟨fun x hx => absurd hx (List.not_mem_nil x), rfl, rfl⟩
  | cons i rest ih =>
    intro st hskel hbnd
    have hlen : i < st.wf.steps.length := by
      rw [len_of_skel hskel]
      exact hbnd i (List.mem_cons_self i rest)
    obtain ⟨mdl, hout⟩ := prep_outcome_clean hRS st i hskel hlen
    have hskel1 : (prepStep env st i).1.wf.steps.map stepSkel =
        wf0.steps.map stepSkel := (frameOK_prepStep env st i).1.trans hskel
    obtain ⟨o1, o2, o3⟩ := ih (prepStep env st i).1 hskel1
      (fun j hj => hbnd j (List.mem_cons_of_mem _ hj))
    refine ⟨?_, ?_, ?_⟩
    · show outsClean wf0 fails em outp
        ((i, (prepStep env st i).2) :: (runPhaseA env (prepStep env st i).1 rest).2)
      intro x hx
      rcases List.mem_cons.mp hx with h | h
      · subst h; exact ⟨mdl, hout⟩
      · exact o1 x h
    · show (runPhaseA env (prepStep env st i).1 rest).1.tracker = st.tracker
      rw [o2, prepStep_tracker]
    · show (runPhaseA env (prepStep env st i).1 rest).1.success = st.success
      rw [o3, prepStep_success]

lemma runPhaseB_clean {wf0 : WorkflowDefinition}
    {fails : String → Bool} {em outp : String → String} :
    ∀ (outs : List (Nat × PendingOutcome)) (st : ExecState),
    outsClean wf0 fails em outp outs →
    (∀ x ∈ outs, x.1 < st.wf.steps.length) →
    (∀ j ∈ outs.map (fun x => x.1), fails (idAt wf0 j) = false →
      (stepAt (runPhaseB st outs) j).status = StepStatus.completed) ∧
    (∀ j, (j ∉ outs.map (fun x => x.1) ∨ fails (idAt wf0 j) = true) →
      stepAt (runPhaseB st outs) j = stepAt st j) ∧
    get_total_cost (runPhaseB st outs).tracker = get_total_cost st.tracker ∧
    (runPhaseB st outs).success = st.success := by
  intro outs
  induction outs with
  | nil =>
    intro st _ _
    exact ⟨fun j hj _ => absurd hj (List.not_mem_nil j), fun j _ => rfl, rfl, rfl⟩
  | cons x rest ih =>
    intro st hclean hbnd
    obtain ⟨i, po⟩ := x
    obtain ⟨mdl, hpo⟩ := hclean (i, po) (List.mem_cons_self _ _)
    simp only at hpo
    subst hpo
    have hlen : i < st.wf.steps.length := hbnd _ (List.mem_cons_self _ _)
    have hcleanR : outsClean wf0 fails em outp rest :=
      fun y hy => hclean y (List.mem_cons_of_mem _ hy)
    cases hf : fails (idAt wf0 i) with
    | true =>
      have hco : cleanOut wf0 fails em outp i = RunnerOutcome.exc (em (idAt wf0 i)) := by
        unfold cleanOut
        rw [if_pos hf]
      have hap : applyOutcome st i
          (PendingOutcome.out mdl (cleanOut wf0 fails em outp i)) = st := by
        rw [hco]
        rfl
      rw [show runPhaseB st ((i, PendingOutcome.out mdl (cleanOut wf0 fails em outp i))
          :: rest) = runPhaseB (applyOutcome st i
            (PendingOutcome.out mdl (cleanOut wf0 fails em outp i))) rest from rfl, hap]
      obtain ⟨b1, b2, b3, b4⟩ := ih st hcleanR
        (fun y hy => hbnd y (List.mem_cons_of_mem _ hy))
      refine ⟨?_, ?_, b3, b4⟩
      · intro j hj hfj
        rcases List.mem_cons.mp hj with h | h
        · rw [h] at hfj
          rw [hfj] at hf
          cases hf
        · exact b1 j h hfj
      · intro j hj
        refine b2 j ?_
        rcases hj with hj | hj
        · exact Or.inl (fun h => hj (List.mem_cons_of_mem _ h))
        · exact Or.inr hj
    | false =>
      have hco : cleanOut wf0 fails em outp i =
          RunnerOutcome.ok true (outp (idAt wf0 i)) Option.none 0 := by
        unfold cleanOut
        rw [if_neg (by rw [hf]; exact Bool.false_ne_true)]
      rw [show runPhaseB st ((i, PendingOutcome.out mdl (cleanOut wf0 fails em outp i))
          :: rest) = runPhaseB (applyOutcome st i
            (PendingOutcome.out mdl (cleanOut wf0 fails em outp i))) rest from rfl, hco]
      have hst1 : (applyOutcome st i (PendingOutcome.out mdl
          (RunnerOutcome.ok true (outp (idAt wf0 i)) Option.none 0))).wf.steps.length =
          st.wf.steps.length := applyOutcome_len st i _
      obtain ⟨b1, b2, b3, b4⟩ := ih (applyOutcome st i (PendingOutcome.out mdl
          (RunnerOutcome.ok true (outp (idAt wf0 i)) Option.none 0))) hcleanR
        (fun y hy => by rw [hst1]; exact hbnd y (List.mem_cons_of_mem _ hy))
      have hstat : (stepAt (applyOutcome st i (PendingOutcome.out mdl
          (RunnerOutcome.ok true (outp (idAt wf0 i)) Option.none 0))) i).status =
          StepStatus.completed :=
        (applyOutcome_status_eq st i hlen mdl (outp (idAt wf0 i)) Option.none 0 true).1
      refine ⟨?_, ?_, ?_, ?_⟩
      · intro j hj hfj
        rcases List.mem_cons.mp hj with h | h
        · subst h
          by_cases hmem : j ∈ rest.map (fun x => x.1)
          · exact b1 j hmem hfj
          · rw [b2 j (Or.inl hmem)]
            exact hstat
        · exact b1 j h hfj
      · intro j hj
        have hne : j ≠ i := by
          intro h
          subst h
          rcases hj with hj | hj
          · exact hj (List.mem_cons_self _ _)
          · rw [hj] at hf
            cases hf
        have hj' : j ∉ rest.map (fun x => x.1) ∨ fails (idAt wf0 j) = true := by
          rcases hj with hj | hj
          · exact Or.inl (fun h => hj (List.mem_cons_of_mem _ h))
          · exact Or.inr hj
        rw [b2 j hj']
        exact applyOutcome_stepAt_ne st _ (fun h => hne h.symm)
      · rw [b3, applyOutcome_total_zero]
      · rw [b4, applyOutcome_success]

lemma runPhaseC_clean {wf0 : WorkflowDefinition}
    {fails : String → Bool} {em outp : String → String} :
    ∀ (outs : List (Nat × PendingOutcome)) (st : ExecState),
    outsClean wf0 fails em outp outs →
    (∀ x ∈ outs, x.1 < st.wf.steps.length) →
    (st.wf.stop_on_failure = false ∨ ∀ x ∈ outs, fails (idAt wf0 x.1) = false) →
    (∀ j ∈ outs.map (fun x => x.1), fails (idAt wf0 j) = true →
      (stepAt (runPhaseC st outs) j).status = StepStatus.failed ∧
      (stepAt (runPhaseC st outs) j).error_message = Option.some (em (idAt wf0 j))) ∧
    (∀ j, (j ∉ outs.map (fun x => x.1) ∨ fails (idAt wf0 j) = false) →
      stepAt (runPhaseC st outs) j = stepAt st j) ∧
    (runPhaseC st outs).tracker = st.tracker ∧
    (runPhaseC st outs).success = st.success := by
  intro outs
  induction outs with
  | nil =>
    intro st _ _ _
    exact ⟨fun j hj _ => absurd hj (List.not_mem_nil j), fun j _ => rfl, rfl, rfl⟩
  | cons x rest ih =>
    intro st hclean hbnd hsofd
    obtain ⟨i, po⟩ := x
    obtain ⟨mdl, hpo⟩ := hclean (i, po) (List.mem_cons_self _ _)
    simp only at hpo
    subst hpo
    have hlen : i < st.wf.steps.length := hbnd _ (List.mem_cons_self _ _)
    have hcleanR : outsClean wf0 fails em outp rest :=
      fun y hy => hclean y (List.mem_cons_of_mem _ hy)
    cases hf : fails (idAt wf0 i) with
    | false =>
      have hex : excText (PendingOutcome.out mdl (cleanOut wf0 fails em outp i)) =
          Option.none := by
        unfold cleanOut
        rw [if_neg (by rw [hf]; exact Bool.false_ne_true)]
        rfl
      rw [runPhaseC_cons_none st i _ rest hex]
      obtain ⟨c1, c2, c3, c4⟩ := ih st hcleanR
        (fun y hy => hbnd y (List.mem_cons_of_mem _ hy))
        (by
          rcases hsofd with h | h
          · exact Or.inl h
          · exact Or.inr (fun y hy => h y (List.mem_cons_of_mem _ hy)))
      refine ⟨?_, ?_, c3, c4⟩
      · intro j hj hfj
        rcases List.mem_cons.mp hj with h | h
        · rw [h] at hfj
          rw [hfj] at hf
          cases hf
        · exact c1 j h hfj
      · intro j hj
        refine c2 j ?_
        rcases hj with hj | hj
        · exact Or.inl (fun h => hj (List.mem_cons_of_mem _ h))
        · exact Or.inr hj
    | true =>
      have hsof : st.wf.stop_on_failure = false := by
        rcases hsofd with h | h
        · exact h
        · have := h (i, PendingOutcome.out mdl (cleanOut wf0 fails em outp i))
            (List.mem_cons_self _ _)
          rw [hf] at this
          cases this
      have hex : excText (PendingOutcome.out mdl (cleanOut wf0 fails em outp i)) =
          Option.some (em (idAt wf0 i)) := by
        unfold cleanOut
        rw [if_pos hf]
        rfl
      rw [runPhaseC_cons_some st i _ rest (em (idAt wf0 i)) hex]
      rw [if_neg (by
        rw [show (updStep st i (markFailed (em (idAt wf0 i)))).wf.stop_on_failure =
          st.wf.stop_on_failure from rfl, hsof]
        exact Bool.false_ne_true)]
      have hlenU : ∀ x ∈ rest, x.1 <
          (updStep st i (markFailed (em (idAt wf0 i)))).wf.steps.length := by
        intro y hy
        rw [updStep_len]
        exact hbnd y (List.mem_cons_of_mem _ hy)
      obtain ⟨c1, c2, c3, c4⟩ := ih (updStep st i (markFailed (em (idAt wf0 i))))
        hcleanR hlenU
        (Or.inl (by
          rw [show (updStep st i (markFailed (em (idAt wf0 i)))).wf.stop_on_failure =
            st.wf.stop_on_failure from rfl]
          exact hsof))
      have hati : stepAt (updStep st i (markFailed (em (idAt wf0 i)))) i =
          markFailed (em (idAt wf0 i)) (stepAt st i) :=
        stepAt_updStep_eq st i _ hlen
      refine ⟨?_, ?_, ?_, ?_⟩
      · intro j hj hfj
        rcases List.mem_cons.mp hj with h | h
        · subst h
          by_cases hmem : j ∈ rest.map (fun x => x.1)
          · exact c1 j hmem hfj
          · rw [c2 j (Or.inl hmem), hati]
            exact ⟨rfl, rfl⟩
        · exact c1 j h hfj
      · intro j hj
        have hne : j ≠ i := by
          intro h
          subst h
          rcases hj with hj | hj
          · exact hj (List.mem_cons_self _ _)
          · rw [hj] at hf
            cases hf
        have hj' : j ∉ rest.map (fun x => x.1) ∨ fails (idAt wf0 j) = false := by
          rcases hj with hj | hj
          · exact Or.inl (fun h => hj (List.mem_cons_of_mem _ h))
          · exact Or.inr hj
        rw [c2 j hj']
        exact stepAt_updStep_ne st _ (fun h => hne h.symm)
      · rw [c3]; rfl
      · rw [c4]; rfl

lemma runGroup_clean {env : AgentEnv} {wf0 : WorkflowDefinition}
    {fails : String → Bool} {em outp : String → String}
    (hRS : RunSpec env wf0 fails em outp) (ms : List Nat) (st : ExecState)
    (hskel : st.wf.steps.map stepSkel = wf0.steps.map stepSkel)
    (hsof : st.wf.stop_on_failure = wf0.stop_on_failure)
    (hbnd : ∀ i ∈ ms, i < wf0.steps.length) :
    (∀ j ∈ ms, stepDoneAt fails em (idAt wf0 j) (stepAt (runGroup env st ms) j)) ∧
    (∀ j, j ∉ ms → stepAt (runGroup env st ms) j = stepAt st j) ∧
    get_total_cost (runGroup env st ms).tracker = get_total_cost st.tracker ∧
    (runGroup env st ms).success = st.success := by
  obtain ⟨hA1, hA2, hA3⟩ := runPhaseA_clean hRS ms st hskel hbnd
  obtain ⟨hfrA, hfsts, huA⟩ := runPhaseA_props env ms st
  have hlenA : (runPhaseA env st ms).1.wf.steps.length = wf0.steps.length := by
    rw [frame_len hfrA]
    exact len_of_skel hskel
  have hbndA : ∀ x ∈ (runPhaseA env st ms).2, x.1 <
      (runPhaseA env st ms).1.wf.steps.length := by
    intro x hx
    rw [hlenA]
    refine hbnd x.1 ?_
    rw [← hfsts]
    exact List.mem_map_of_mem (fun y => y.1) hx
  obtain ⟨hB1, hB2, hB3, hB4⟩ := runPhaseB_clean (runPhaseA env st ms).2
    (runPhaseA env st ms).1 hA1 hbndA
  obtain ⟨hfrB, huB⟩ := runPhaseB_props (runPhaseA env st ms).2 (runPhaseA env st ms).1
  have hbndB : ∀ x ∈ (runPhaseA env st ms).2, x.1 <
      (runPhaseB (runPhaseA env st ms).1 (runPhaseA env st ms).2).wf.steps.length := by
    intro x hx
    rw [frame_len hfrB]
    exact hbndA x hx
  have hsofB : (runPhaseB (runPhaseA env st ms).1
      (runPhaseA env st ms).2).wf.stop_on_failure = wf0.stop_on_failure := by
    rw [hfrB.2.2.1, hfrA.2.2.1, hsof]
  have hsofd : (runPhaseB (runPhaseA env st ms).1
      (runPhaseA env st ms).2).wf.stop_on_failure = false ∨
      ∀ x ∈ (runPhaseA env st ms).2, fails (idAt wf0 x.1) = false := by
    rcases hRS.sof_ok with h | h
    · exact Or.inl (hsofB.trans h)
    · refine Or.inr ?_
      intro x hx
      have hx1 : x.1 < wf0.steps.length := by
        have := hbndA x hx
        rw [hlenA] at this
        exact this
      exact h _ (getD_mem _ _ _ hx1)
  obtain ⟨hC1, hC2, hC3, hC4⟩ := runPhaseC_clean (runPhaseA env st ms).2
    (runPhaseB (runPhaseA env st ms).1 (runPhaseA env st ms).2) hA1 hbndB hsofd
  refine ⟨?_, ?_, ?_, ?_⟩
  · intro j hj
    have hjm : j ∈ (runPhaseA env st ms).2.map (fun x => x.1) := by
      rw [hfsts]; exact hj
    show stepDoneAt fails em (idAt wf0 j)
      (stepAt (runPhaseC (runPhaseB (runPhaseA env st ms).1 (runPhaseA env st ms).2)
        (runPhaseA env st ms).2) j)
    cases hf : fails (idAt wf0 j) with
    | true =>
      obtain ⟨h1, h2⟩ := hC1 j hjm hf
      exact Or.inr ⟨hf, h1, h2⟩
    | false =>
      have hcomp := hB1 j hjm hf
      rw [hC2 j (Or.inr hf)]
      exact Or.inl ⟨hf, hcomp⟩
  · intro j hj
    have hjm : j ∉ (runPhaseA env st ms).2.map (fun x => x.1) := by
      rw [hfsts]; exact hj
    show stepAt (runPhaseC (runPhaseB (runPhaseA env st ms).1 (runPhaseA env st ms).2)
      (runPhaseA env st ms).2) j = stepAt st j
    rw [hC2 j (Or.inl hjm), hB2 j (Or.inl hjm), huA j hj]
  · show get_total_cost (runPhaseC (runPhaseB (runPhaseA env st ms).1
      (runPhaseA env st ms).2) (runPhaseA env st ms).2).tracker = _
    rw [hC3, hB3, hA2]
  · show (runPhaseC (runPhaseB (runPhaseA env st ms).1
      (runPhaseA env st ms).2) (runPhaseA env st ms).2).success = _
    rw [hC4, hB4, hA3]

lemma runGroups_clean {env : AgentEnv} {wf0 : WorkflowDefinition}
    {fails : String → Bool} {em outp : String → String}
    (hRS : RunSpec env wf0 fails em outp) :
    ∀ (gs : List (String × List Nat)) (st : ExecState),
    st.wf.steps.map stepSkel = wf0.steps.map stepSkel →
    st.wf.stop_on_failure = wf0.stop_on_failure →
    (∀ g ∈ gs, ∀ i ∈ g.2, i < wf0.steps.length) →
    (∀ j ∈ allMembers gs,
      stepDoneAt fails em (idAt wf0 j) (stepAt (runGroups env st gs) j)) ∧
    (∀ j, j ∉ allMembers gs → stepAt (runGroups env st gs) j = stepAt st j) ∧
    get_total_cost (runGroups env st gs).tracker = get_total_cost st.tracker ∧
    (runGroups env st gs).success = st.success := by
  intro gs
  induction gs with
  | nil =>
    intro st _ _ _
    exact ⟨fun j hj => absurd hj (List.not_mem_nil j), fun j _ => rfl, rfl, rfl⟩
  | cons g rest ih =>
    intro st hskel hsof hbnd
    obtain ⟨g1, g2, g3, g4⟩ := runGroup_clean hRS g.2 st hskel hsof
      (hbnd g (List.mem_cons_self _ _))
    have hfr := (runGroup_props env st g.2).1
    obtain ⟨i1, i2, i3, i4⟩ := ih (runGroup env st g.2) (hfr.1.trans hskel)
      (hfr.2.2.1.trans hsof) (fun g' hg' => hbnd g' (List.mem_cons_of_mem _ hg'))
    have hmem : ∀ j, j ∈ allMembers (g :: rest) ↔ j ∈ g.2 ∨ j ∈ allMembers rest := by
      intro j
      unfold allMembers
      rw [List.map_cons, List.flatten_cons, List.mem_append]
    refine ⟨?_, ?_, ?_, ?_⟩
    · intro j hj
      show stepDoneAt fails em (idAt wf0 j) (stepAt (runGroups env (runGroup env st g.2)
        rest) j)
      by_cases hjr : j ∈ allMembers rest
      · exact i1 j hjr
      · rcases (hmem j).mp hj with hjg | hjr'
        · rw [i2 j hjr]
          exact g1 j hjg
        · exact absurd hjr' hjr
    · intro j hj
      show stepAt (runGroups env (runGroup env st g.2) rest) j = stepAt st j
      rw [i2 j (fun h => hj ((hmem j).mpr (Or.inr h))),
        g2 j (fun h => hj ((hmem j).mpr (Or.inl h)))]
    · show get_total_cost (runGroups env (runGroup env st g.2) rest).tracker = _
      rw [i3, g3]
    · show (runGroups env (runGroup env st g.2) rest).success = _
      rw [i4, g4]

lemma runSeq_clean {env : AgentEnv} {wf0 : WorkflowDefinition}
    {fails : String → Bool} {em outp : String → String}
    (hRS : RunSpec env wf0 fails em outp) :
    ∀ (l : List Nat) (st : ExecState),
    st.wf.steps.map stepSkel = wf0.steps.map stepSkel →
    st.wf.stop_on_failure = wf0.stop_on_failure →
    st.success = true →
    (∀ i ∈ l, i < wf0.steps.length) →
    (∀ j ∈ l, stepDoneAt fails em (idAt wf0 j) (stepAt (runSeq env st l) j)) ∧
    (∀ j, j ∉ l → stepAt (runSeq env st l) j = stepAt st j) ∧
    get_total_cost (runSeq env st l).tracker = get_total_cost st.tracker ∧
    (runSeq env st l).success = true := by
  intro l
  induction l with
  | nil =>
    intro st _ _ hsucc _
    exact ⟨fun j hj => absurd hj (List.not_mem_nil j), fun j _ => rfl, rfl, hsucc⟩
  | cons i rest ih =>
    intro st hskel hsof hsucc hbnd
    have hguard : (!st.success && st.wf.stop_on_failure) = false := by
      rw [hsucc]
      rfl
    have hlen : i < st.wf.steps.length := by
      rw [len_of_skel hskel]
      exact hbnd i (List.mem_cons_self i rest)
    obtain ⟨mdl, hout⟩ := prep_outcome_clean hRS st i hskel hlen
    have hfrP := frameOK_prepStep env st i
    have hlenP : i < (prepStep env st i).1.wf.steps.length := by
      rw [frame_len hfrP]
      exact hlen
    cases hf : fails (idAt wf0 i) with
    | false =>
      have hco : cleanOut wf0 fails em outp i =
          RunnerOutcome.ok true (outp (idAt wf0 i)) Option.none 0 := by
        unfold cleanOut
        rw [if_neg (by rw [hf]; exact Bool.false_ne_true)]
      have hex : excText (prepStep env st i).2 = Option.none := by
        rw [hout, hco]
        rfl
      rw [runSeq_cons_none env st i rest hguard hex]
      have hfr1 : frameOK st (applyOutcome (prepStep env st i).1 i (prepStep env st i).2) :=
        frameOK_trans hfrP (frameOK_applyOutcome _ i _)
      have hstat : (stepAt (applyOutcome (prepStep env st i).1 i
          (prepStep env st i).2) i).status = StepStatus.completed := by
        rw [show (prepStep env st i).2 =
          PendingOutcome.out mdl (RunnerOutcome.ok true (outp (idAt wf0 i))
            Option.none 0) from hout.trans (by rw [hco])]
        exact (applyOutcome_status_eq (prepStep env st i).1 i hlenP mdl
          (outp (idAt wf0 i)) Option.none 0 true).1
      have htot1 : get_total_cost (applyOutcome (prepStep env st i).1 i
          (prepStep env st i).2).tracker = get_total_cost st.tracker := by
        rw [show (prepStep env st i).2 =
          PendingOutcome.out mdl (RunnerOutcome.ok true (outp (idAt wf0 i))
            Option.none 0) from hout.trans (by rw [hco])]
        rw [applyOutcome_total_zero, prepStep_tracker]
      obtain ⟨s1, s2, s3, s4⟩ := ih (applyOutcome (prepStep env st i).1 i
          (prepStep env st i).2) (hfr1.1.trans hskel) (hfr1.2.2.1.trans hsof)
        (by rw [applyOutcome_success, prepStep_success]; exact hsucc)
        (fun j hj => hbnd j (List.mem_cons_of_mem _ hj))
      refine ⟨?_, ?_, ?_, s4⟩
      · intro j hj
        rcases List.mem_cons.mp hj with h | h
        · subst h
          by_cases hmem : j ∈ rest
          · exact s1 j hmem
          · rw [s2 j hmem]
            exact Or.inl ⟨hf, hstat⟩
        · exact s1 j h
      · intro j hj
        have hne : i ≠ j := fun h => hj (h ▸ List.mem_cons_self i rest)
        rw [s2 j (fun h => hj (List.mem_cons_of_mem _ h)),
          applyOutcome_stepAt_ne _ _ hne, stepAt_prepStep_ne env st hne]
      · rw [s3, htot1]
    | true =>
      have hco : cleanOut wf0 fails em outp i = RunnerOutcome.exc (em (idAt wf0 i)) := by
        unfold cleanOut
        rw [if_pos hf]
      have hex : excText (prepStep env st i).2 = Option.some (em (idAt wf0 i)) := by
        rw [hout, hco]
        rfl
      have hsof0 : wf0.stop_on_failure = false := by
        rcases hRS.sof_ok with h | h
        · exact h
        · have hmem0 : wf0.steps.getD i default ∈ wf0.steps :=
            getD_mem _ _ _ (hbnd i (List.mem_cons_self i rest))
          have := h _ hmem0
          rw [show (wf0.steps.getD i default).id = idAt wf0 i from rfl, hf] at this
          cases this
      rw [runSeq_cons_some env st i rest (em (idAt wf0 i)) hguard hex]
      rw [if_neg (by
        rw [show (updStep (applyOutcome (prepStep env st i).1 i (prepStep env st i).2) i
          (markFailed (em (idAt wf0 i)))).wf.stop_on_failure =
          (prepStep env st i).1.wf.stop_on_failure from
            (applyOutcome_sof _ i _ : (applyOutcome (prepStep env st i).1 i
              (prepStep env st i).2).wf.stop_on_failure = _),
          hfrP.2.2.1, hsof, hsof0]
        exact Bool.false_ne_true)]
      have hfr2 : frameOK st (updStep (applyOutcome (prepStep env st i).1 i
          (prepStep env st i).2) i (markFailed (em (idAt wf0 i)))) :=
        frameOK_trans (frameOK_trans hfrP (frameOK_applyOutcome _ i _))
          ⟨updStep_skel _ i _ (markFailed_skel _), rfl, rfl, rfl⟩
      have hlen2 : i < (applyOutcome (prepStep env st i).1 i
          (prepStep env st i).2).wf.steps.length := by
        rw [applyOutcome_len]
        exact hlenP
      have hap : applyOutcome (prepStep env st i).1 i (prepStep env st i).2 =
          (prepStep env st i).1 := by
        rw [show (prepStep env st i).2 =
          PendingOutcome.out mdl (RunnerOutcome.exc (em (idAt wf0 i))) from
            hout.trans (by rw [hco])]
        rfl
      have hati : stepAt (updStep (applyOutcome (prepStep env st i).1 i
          (prepStep env st i).2) i (markFailed (em (idAt wf0 i)))) i =
          markFailed (em (idAt wf0 i)) (stepAt (applyOutcome (prepStep env st i).1 i
            (prepStep env st i).2) i) :=
        stepAt_updStep_eq _ i _ hlen2
      obtain ⟨s1, s2, s3, s4⟩ := ih (updStep (applyOutcome (prepStep env st i).1 i
          (prepStep env st i).2) i (markFailed (em (idAt wf0 i))))
        (hfr2.1.trans hskel) (hfr2.2.2.1.trans hsof)
        (by
          show (applyOutcome (prepStep env st i).1 i (prepStep env st i).2).success = true
          rw [applyOutcome_success, prepStep_success]
          exact hsucc)
        (fun j hj => hbnd j (List.mem_cons_of_mem _ hj))
      refine ⟨?_, ?_, ?_, s4⟩
      · intro j hj
        rcases List.mem_cons.mp hj with h | h
        · subst h
          by_cases hmem : j ∈ rest
          · exact s1 j hmem
          · rw [s2 j hmem, hati]
            exact Or.inr ⟨hf, rfl, rfl⟩
        · exact s1 j h
      · intro j hj
        have hne : i ≠ j := fun h => hj (h ▸ List.mem_cons_self i rest)
        rw [s2 j (fun h => hj (List.mem_cons_of_mem _ h)),
          stepAt_updStep_ne _ _ hne, applyOutcome_stepAt_ne _ _ hne,
          stepAt_prepStep_ne env st hne]
      · rw [s3,
          show (updStep (applyOutcome (prepStep env st i).1 i (prepStep env st i).2) i
            (markFailed (em (idAt wf0 i)))).tracker =
            (applyOutcome (prepStep env st i).1 i (prepStep env st i).2).tracker from rfl,
          hap, prepStep_tracker]

lemma addToGroups_nonempty :
    ∀ (gs : List (String × List Nat)) (g : String) (i : Nat),
    (∀ p ∈ gs, p.2 ≠ []) → ∀ p ∈ addToGroups gs g i, p.2 ≠ [] := by
  intro gs
  induction gs with
  | nil =>
    intro g i _ p hp
    rw [show addToGroups [] g i = [(g, [i])] from rfl, List.mem_singleton] at hp
    subst hp
    exact List.cons_ne_nil _ _
  | cons kv rest ih =>
    intro g i h p hp
    by_cases hk : kv.1 = g
    · rw [show addToGroups (kv :: rest) g i = (kv.1, kv.2 ++ [i]) :: rest by
        simp only [addToGroups]; rw [if_pos hk]] at hp
      rcases List.mem_cons.mp hp with h1 | h1
      · subst h1
        simp
      · exact h p (List.mem_cons_of_mem _ h1)
    · rw [show addToGroups (kv :: rest) g i = (kv.1, kv.2) :: addToGroups rest g i by
        simp only [addToGroups]; rw [if_neg hk]] at hp
      rcases List.mem_cons.mp hp with h1 | h1
      · subst h1
        exact h kv (List.mem_cons_self _ _)
      · exact ih g i (fun q hq => h q (List.mem_cons_of_mem _ hq)) p h1

lemma partitionReady_groups_nonempty (wf : WorkflowDefinition) (r : List Nat) :
    ∀ p ∈ (partitionReady wf r).1, p.2 ≠ [] := by
  unfold partitionReady
  have key : ∀ (l : List Nat) (acc : List (String × List Nat) × List Nat),
      (∀ p ∈ acc.1, p.2 ≠ []) →
      ∀ p ∈ (l.foldl (fun acc i =>
        match pgroupOf (wf.steps.getD i default) with
        | Option.some g => (addToGroups acc.1 g i, acc.2)
        | Option.none => (acc.1, acc.2 ++ [i])) acc).1, p.2 ≠ [] := by
    intro l
    induction l with
    | nil => intro acc h; exact h
    | cons i rest ih =>
      intro acc h
      rw [List.foldl_cons]
      cases hpg : pgroupOf (wf.steps.getD i default) with
      | none => exact ih (acc.1, acc.2 ++ [i]) (fun p hp => h p hp)
      | some g =>
        exact ih (addToGroups acc.1 g i, acc.2) (addToGroups_nonempty acc.1 g i h)
  exact key r ([], []) (fun p hp => absurd hp (List.not_mem_nil p))

lemma runBatch_frame (env : AgentEnv) (st : ExecState) (ready : List Nat) :
    frameOK st (runBatch env st ready) := by
  show frameOK st (runSeq env (runGroups env st (partitionReady st.wf ready).1)
    ((partitionReady st.wf ready).2.take
      (runGroups env st (partitionReady st.wf ready).1).wf.max_parallel_steps))
  exact frameOK_trans (runGroups_props env (partitionReady st.wf ready).1 st).1
    (runSeq_props env _ _).1

lemma runBatch_clean {env : AgentEnv} {wf0 : WorkflowDefinition}
    {fails : String → Bool} {em outp : String → String}
    (hRS : RunSpec env wf0 fails em outp) (st : ExecState)
    (hskel : st.wf.steps.map stepSkel = wf0.steps.map stepSkel)
    (hsof : st.wf.stop_on_failure = wf0.stop_on_failure)
    (hcap : st.wf.max_parallel_steps = wf0.max_parallel_steps)
    (hsucc : st.success = true) :
    (∀ j, stepAt (runBatch env st (readyIdxs st.wf)) j = stepAt st j ∨
      (j ∈ readyIdxs st.wf ∧
        stepDoneAt fails em (idAt wf0 j)
          (stepAt (runBatch env st (readyIdxs st.wf)) j))) ∧
    (readyIdxs st.wf ≠ [] → 1 ≤ wf0.max_parallel_steps →
      ∃ i ∈ readyIdxs st.wf,
        stepDoneAt fails em (idAt wf0 i)
          (stepAt (runBatch env st (readyIdxs st.wf)) i)) ∧
    get_total_cost (runBatch env st (readyIdxs st.wf)).tracker =
      get_total_cost st.tracker ∧
    (runBatch env st (readyIdxs st.wf)).success = true := by
  have hmemFlat : ∀ x, x ∈ bucketsFlat (partitionReady st.wf (readyIdxs st.wf)) ↔
      x ∈ readyIdxs st.wf := partitionReady_flat st.wf (readyIdxs st.wf)
  have hmemG : ∀ i ∈ allMembers (partitionReady st.wf (readyIdxs st.wf)).1,
      i ∈ readyIdxs st.wf := by
    intro i hi
    rw [← hmemFlat i]
    unfold bucketsFlat
    exact List.mem_append.mpr (Or.inl hi)
  have hmemS : ∀ i ∈ (partitionReady st.wf (readyIdxs st.wf)).2,
      i ∈ readyIdxs st.wf := by
    intro i hi
    rw [← hmemFlat i]
    unfold bucketsFlat
    exact List.mem_append.mpr (Or.inr hi)
  have hbndR : ∀ i ∈ readyIdxs st.wf, i < wf0.steps.length := by
    intro i hi
    rw [← len_of_skel hskel]
    exact ((mem_readyIdxs st.wf i).mp hi).1
  have hbndG : ∀ g ∈ (partitionReady st.wf (readyIdxs st.wf)).1, ∀ i ∈ g.2,
      i < wf0.steps.length := by
    intro g hg i hi
    refine hbndR i (hmemG i ?_)
    unfold allMembers
    rw [List.mem_flatten]
    exact ⟨g.2, List.mem_map_of_mem (fun p => p.2) hg, hi⟩
  obtain ⟨G1, G2, G3, G4⟩ := runGroups_clean hRS
    (partitionReady st.wf (readyIdxs st.wf)).1 st hskel hsof hbndG
  have hfrG := (runGroups_props env (partitionReady st.wf (readyIdxs st.wf)).1 st).1
  have hcapG : (runGroups env st
      (partitionReady st.wf (readyIdxs st.wf)).1).wf.max_parallel_steps =
      wf0.max_parallel_steps := hfrG.2.1.trans hcap
  have hbndL : ∀ i ∈ (partitionReady st.wf (readyIdxs st.wf)).2.take
      (runGroups env st
        (partitionReady st.wf (readyIdxs st.wf)).1).wf.max_parallel_steps,
      i < wf0.steps.length :=
    fun i hi => hbndR i (hmemS i (List.mem_of_mem_take hi))
  obtain ⟨S1, S2, S3, S4⟩ := runSeq_clean hRS
    ((partitionReady st.wf (readyIdxs st.wf)).2.take
      (runGroups env st
        (partitionReady st.wf (readyIdxs st.wf)).1).wf.max_parallel_steps)
    (runGroups env st (partitionReady st.wf (readyIdxs st.wf)).1)
    (hfrG.1.trans hskel) (hfrG.2.2.1.trans hsof) (G4.trans hsucc) hbndL
  have hshow : runBatch env st (readyIdxs st.wf) =
      runSeq env (runGroups env st (partitionReady st.wf (readyIdxs st.wf)).1)
        ((partitionReady st.wf (readyIdxs st.wf)).2.take
          (runGroups env st
            (partitionReady st.wf (readyIdxs st.wf)).1).wf.max_parallel_steps) := rfl
  rw [hshow]
  refine ⟨?_, ?_, ?_, S4⟩
  · intro j
    by_cases hjG : j ∈ allMembers (partitionReady st.wf (readyIdxs st.wf)).1
    · by_cases hjL : j ∈ (partitionReady st.wf (readyIdxs st.wf)).2.take
          (runGroups env st
            (partitionReady st.wf (readyIdxs st.wf)).1).wf.max_parallel_steps
      · exact Or.inr ⟨hmemG j hjG, S1 j hjL⟩
      · refine Or.inr ⟨hmemG j hjG, ?_⟩
        rw [S2 j hjL]
        exact G1 j hjG
    · by_cases hjL : j ∈ (partitionReady st.wf (readyIdxs st.wf)).2.take
          (runGroups env st
            (partitionReady st.wf (readyIdxs st.wf)).1).wf.max_parallel_steps
      · exact Or.inr ⟨hmemS j (List.mem_of_mem_take hjL), S1 j hjL⟩
      · refine Or.inl ?_
        rw [S2 j hjL, G2 j hjG]
  · intro hne hcap1
    by_cases hp : (partitionReady st.wf (readyIdxs st.wf)).1 = []
    · have hp2 : (partitionReady st.wf (readyIdxs st.wf)).2 ≠ [] := by
        obtain ⟨x, hx⟩ := List.exists_mem_of_ne_nil _ hne
        intro hnil
        have hx' := (hmemFlat x).mpr hx
        unfold bucketsFlat at hx'
        rw [hp, hnil] at hx'
        simp at hx'
      obtain ⟨j0, t, hp2'⟩ := List.exists_cons_of_ne_nil hp2
      have hcapn : ∃ m, (runGroups env st
          (partitionReady st.wf (readyIdxs st.wf)).1).wf.max_parallel_steps =
          m + 1 := by
        rw [hcapG]
        cases hc : wf0.max_parallel_steps with
        | zero => rw [hc] at hcap1; cases hcap1
        | succ m => exact ⟨m, rfl⟩
      obtain ⟨m, hm⟩ := hcapn
      have hj0 : j0 ∈ (partitionReady st.wf (readyIdxs st.wf)).2.take
          (runGroups env st
            (partitionReady st.wf (readyIdxs st.wf)).1).wf.max_parallel_steps := by
        rw [hp2', hm]
        exact List.mem_cons_self _ _
      exact ⟨j0, hmemS j0 (by rw [hp2']; exact List.mem_cons_self _ _), S1 j0 hj0⟩
    · obtain ⟨g, gs, hpc⟩ := List.exists_cons_of_ne_nil hp
      have hgne : g.2 ≠ [] := by
        refine partitionReady_groups_nonempty st.wf (readyIdxs st.wf) g ?_
        rw [hpc]
        exact List.mem_cons_self _ _
      obtain ⟨i0, hi0⟩ := List.exists_mem_of_ne_nil _ hgne
      have hi0M : i0 ∈ allMembers (partitionReady st.wf (readyIdxs st.wf)).1 := by
        unfold allMembers
        rw [List.mem_flatten]
        have hgm : g ∈ (partitionReady st.wf (readyIdxs st.wf)).1 := by
          rw [hpc]
          exact List.mem_cons_self _ _
        exact ⟨g.2, List.mem_map_of_mem (fun p => p.2) hgm, hi0⟩
      refine ⟨i0, hmemG i0 hi0M, ?_⟩
      by_cases hjL : i0 ∈ (partitionReady st.wf (readyIdxs st.wf)).2.take
          (runGroups env st
            (partitionReady st.wf (readyIdxs st.wf)).1).wf.max_parallel_steps
      · exact S1 i0 hjL
      · rw [S2 i0 hjL]
        exact G1 i0 hi0M
  · rw [S3, G3]

lemma filter_isEmpty_iff {α : Type} (p : α → Bool) :
    ∀ l : List α, (l.filter p).isEmpty = true ↔ ∀ x ∈ l, p x = false := by
  intro l
  induction l with
  | nil => simp
  | cons x xs ih =>
    cases hx : p x with
    | true => simp [List.filter_cons, hx]
    | false => simp [List.filter_cons, hx, ih]

lemma exists_getD_of_mem {α : Type} {l : List α} {s : α} (d : α) (h : s ∈ l) :
    ∃ i, i < l.length ∧ l.getD i d = s := by
  induction l with
  | nil => cases h
  | cons x xs ih =>
    rcases List.mem_cons.mp h with h1 | h1
    · exact ⟨0, Nat.succ_pos _, h1.symm⟩
    · obtain ⟨i, hi, hg⟩ := ih h1
      exact ⟨i + 1, Nat.succ_lt_succ hi, hg⟩

lemma pendingCount_eq_countP (st : ExecState) :
    pendingCount st =
      st.wf.steps.countP (fun s => decide (s.status = StepStatus.pending)) :=
  (List.countP_eq_length_filter _ _).symm

lemma stepOKInv_of_done {fails : String → Bool} {em : String → String} {sid : String}
    {s : WorkflowStep} (hsid : s.id = sid) (h : stepDoneAt fails em sid s) :
    stepOKInv fails em s := by
  rcases h with ⟨hf, hc⟩ | ⟨hf, hst, hmsg⟩
  · exact Or.inr (Or.inl ⟨by rw [hsid]; exact hf, hc⟩)
  · exact Or.inr (Or.inr ⟨by rw [hsid]; exact hf, hst, by rw [hsid]; exact hmsg⟩)

lemma runIteration_clean {env : AgentEnv} {wf0 : WorkflowDefinition}
    {tr0 : CostTracker} {fails : String → Bool} {em outp : String → String}
    (hRS : RunSpec env wf0 fails em outp) (st : ExecState)
    (hM : MInv wf0 tr0 fails em st)
    (hcap1 : 1 ≤ wf0.max_parallel_steps)
    (hbud : get_total_cost tr0 < tr0.budget_usd)
    (hready : (readyIdxs st.wf).isEmpty = false) :
    runIteration env st = IterOut.again (runBatch env st (readyIdxs st.wf)) ∧
    MInv wf0 tr0 fails em (runBatch env st (readyIdxs st.wf)) ∧
    pendingCount (runBatch env st (readyIdxs st.wf)) < pendingCount st ∧
    (∀ j, stepAt (runBatch env st (readyIdxs st.wf)) j = stepAt st j ∨
      (j ∈ readyIdxs st.wf ∧ stepDoneAt fails em (idAt wf0 j)
        (stepAt (runBatch env st (readyIdxs st.wf)) j))) := by
  obtain ⟨hske, hsucc, htot, hbudE, hOK⟩ := hM
  obtain ⟨hskel, hcap, hsof⟩ := hske
  obtain ⟨Ba, Bb, Bc, Bd⟩ := runBatch_clean hRS st hskel hsof hcap hsucc
  have hfr := runBatch_frame env st (readyIdxs st.wf)
  have hne : readyIdxs st.wf ≠ [] := by
    intro h
    rw [h] at hready
    cases hready
  have htot' : get_total_cost (runBatch env st (readyIdxs st.wf)).tracker =
      get_total_cost tr0 := Bc.trans htot
  have hbud' : (runBatch env st (readyIdxs st.wf)).tracker.budget_usd =
      tr0.budget_usd := hfr.2.2.2.trans hbudE
  have hov : is_over_budget (runBatch env st (readyIdxs st.wf)).tracker = false := by
    unfold is_over_budget
    refine decide_eq_false ?_
    rw [htot', hbud']
    omega
  have hiter : runIteration env st =
      IterOut.again (runBatch env st (readyIdxs st.wf)) := by
    unfold runIteration afterBatch
    rw [hready, hov, Bd]
    simp only [Bool.false_eq_true, if_false, Bool.not_true]
  have hlenB : (runBatch env st (readyIdxs st.wf)).wf.steps.length =
      st.wf.steps.length := frame_len hfr
  have hskelB : (runBatch env st (readyIdxs st.wf)).wf.steps.map stepSkel =
      wf0.steps.map stepSkel := hfr.1.trans hskel
  refine ⟨hiter, ⟨⟨hskelB, hfr.2.1.trans hcap, hfr.2.2.1.trans hsof⟩, Bd, htot',
    hbud', ?_⟩, ?_, Ba⟩
  · intro i hi
    rcases Ba i with heq | ⟨_, hdone⟩
    · have heq' : (runBatch env st (readyIdxs st.wf)).wf.steps.getD i default =
          st.wf.steps.getD i default := heq
      rw [heq']
      refine hOK i ?_
      rw [← hlenB]
      exact hi
    · have hid : (stepAt (runBatch env st (readyIdxs st.wf)) i).id = idAt wf0 i :=
        congrArg (fun q => q.1) (skel_at_of_map hskelB i)
      exact stepOKInv_of_done hid hdone
  · obtain ⟨i0, hi0R, hdone0⟩ := Bb hne hcap1
    obtain ⟨hi0len, hi0pend, _⟩ := (mem_readyIdxs st.wf i0).mp hi0R
    rw [pendingCount_eq_countP, pendingCount_eq_countP]
    refine countP_strict_pointwise _ default st.wf.steps
      (runBatch env st (readyIdxs st.wf)).wf.steps hlenB.symm ?_ i0 hi0len
      (decide_eq_true hi0pend) ?_
    · intro i hi hp
      rcases Ba i with heq | ⟨_, hdone⟩
      · have hp' : decide ((stepAt (runBatch env st (readyIdxs st.wf)) i).status =
            StepStatus.pending) = true := hp
        rw [heq] at hp'
        exact hp'
      · exfalso
        have hp' : (stepAt (runBatch env st (readyIdxs st.wf)) i).status =
            StepStatus.pending := of_decide_eq_true hp
        rcases hdone with ⟨_, hc⟩ | ⟨_, hc, _⟩
        · rw [hp'] at hc
          cases hc
        · rw [hp'] at hc
          cases hc
    · refine decide_eq_false ?_
      intro hp
      rcases hdone0 with ⟨_, hc⟩ | ⟨_, hc, _⟩
      · have : StepStatus.pending = StepStatus.completed := hp ▸ hc
        cases this
      · have : StepStatus.pending = StepStatus.failed := hp ▸ hc
        cases this

lemma ready_ne_nil_of_pending {wf0 : WorkflowDefinition} {fails : String → Bool}
    {em : String → String} {L : List String}
    (hL : topoOkB wf0 L = true)
    (hnd : ∀ s ∈ wf0.steps, ∀ d ∈ s.depends_on, fails d = false)
    (st : ExecState)
    (hskel : st.wf.steps.map stepSkel = wf0.steps.map stepSkel)
    (hOK : ∀ i, i < st.wf.steps.length →
      stepOKInv fails em (st.wf.steps.getD i default))
    (i : Nat) (hi : i < st.wf.steps.length)
    (hpend : (st.wf.steps.getD i default).status = StepStatus.pending) :
    readyIdxs st.wf ≠ [] := by
  have hP : i ∈ (List.range st.wf.steps.length).filter
      (fun k => decide ((st.wf.steps.getD k default).status = StepStatus.pending)) := by
    rw [List.mem_filter, List.mem_range]
    exact ⟨hi, decide_eq_true hpend⟩
  obtain ⟨j, hjP, hjmin⟩ := exists_min_key _ (List.ne_nil_of_mem hP)
    (fun k => L.indexOf (idAt wf0 k))
  rw [List.mem_filter, List.mem_range] at hjP
  obtain ⟨hjlen, hjpend⟩ := hjP
  have hjpend' := of_decide_eq_true hjpend
  have hjlen0 : j < wf0.steps.length := by
    rw [← len_of_skel hskel]
    exact hjlen
  have hjmem : wf0.steps.getD j default ∈ wf0.steps := getD_mem _ _ _ hjlen0
  have hsk := skel_at_of_map hskel j
  have hdeps : (stepAt st j).depends_on = (wf0.steps.getD j default).depends_on :=
    congrArg (fun q => q.2.2.1) hsk
  have htopo : ((wf0.steps.getD j default).depends_on.all (fun d =>
      match getStepIdx wf0 d with
      | Option.some j' => decide (L.indexOf ((wf0.steps.getD j' default).id) <
          L.indexOf ((wf0.steps.getD j default).id))
      | Option.none => true)) = true := by
    have h := hL
    unfold topoOkB at h
    rw [Bool.and_eq_true] at h
    exact List.all_eq_true.mp h.2 _ hjmem
  refine List.ne_nil_of_mem ((mem_readyIdxs st.wf j).mpr ⟨hjlen, hjpend', ?_⟩)
  rw [depsMet_idx_iff]
  intro d hd k hk
  have hd0 : d ∈ (wf0.steps.getD j default).depends_on := by
    rw [← hdeps]
    exact hd
  rw [getStepIdx_congr hskel d] at hk
  obtain ⟨hklen0, hkid⟩ := getStepIdx_id hk
  have hklen : k < st.wf.steps.length := by
    rw [len_of_skel hskel]
    exact hklen0
  have hkid' : (st.wf.steps.getD k default).id = (wf0.steps.getD k default).id :=
    congrArg (fun q => q.1) (skel_at_of_map hskel k)
  rcases hOK k hklen with hkpend | ⟨_, hkc⟩ | ⟨hkf, _, _⟩
  · exfalso
    have hkey := List.all_eq_true.mp htopo d hd0
    rw [hk] at hkey
    have hkey' := of_decide_eq_true hkey
    have hkP : k ∈ (List.range st.wf.steps.length).filter
        (fun k => decide ((st.wf.steps.getD k default).status =
          StepStatus.pending)) := by
      rw [List.mem_filter, List.mem_range]
      exact ⟨hklen, decide_eq_true hkpend⟩
    have hmin := hjmin k hkP
    have hidk : idAt wf0 k = (wf0.steps.getD k default).id := rfl
    have hidj : idAt wf0 j = (wf0.steps.getD j default).id := rfl
    rw [hidk, hidj] at hmin
    omega
  · exact hkc
  · exfalso
    have hfd : fails d = false := hnd _ hjmem d hd0
    rw [hkid', hkid] at hkf
    rw [hkf] at hfd
    cases hfd

lemma runLoop_progress {env : AgentEnv} {wf0 : WorkflowDefinition}
    {tr0 : CostTracker} {fails : String → Bool} {em outp : String → String}
    {L : List String}
    (hRS : RunSpec env wf0 fails em outp)
    (hL : topoOkB wf0 L = true)
    (hcap1 : 1 ≤ wf0.max_parallel_steps)
    (hbud : get_total_cost tr0 < tr0.budget_usd) :
    ∀ (n : Nat) (st : ExecState), MInv wf0 tr0 fails em st → pendingCount st ≤ n →
    ∃ fin, runLoop env (n + 1) st = Option.some fin ∧ MInv wf0 tr0 fails em fin ∧
      ∀ i, i < fin.wf.steps.length →
        (stepAt fin i).status ≠ StepStatus.pending := by
  intro n
  induction n with
  | zero =>
    intro st hM hpc
    have hpc0 : pendingCount st = 0 := Nat.le_zero.mp hpc
    have hnop : ∀ s ∈ st.wf.steps, decide (s.status = StepStatus.pending) = false := by
      intro s hs
      cases hds : decide (s.status = StepStatus.pending) with
      | false => rfl
      | true =>
        exfalso
        have hmem : s ∈ st.wf.steps.filter
            (fun s => decide (s.status = StepStatus.pending)) :=
          List.mem_filter.mpr ⟨hs, hds⟩
        have := List.ne_nil_of_mem hmem
        unfold pendingCount at hpc0
        rw [List.length_eq_zero] at hpc0
        exact this hpc0
    have hre : (readyIdxs st.wf).isEmpty = true := by
      cases hr : readyIdxs st.wf with
      | nil => rfl
      | cons x t =>
        exfalso
        have hx : x ∈ readyIdxs st.wf := by rw [hr]; exact List.mem_cons_self _ _
        obtain ⟨hxlen, hxpend, _⟩ := (mem_readyIdxs st.wf x).mp hx
        have := hnop (st.wf.steps.getD x default) (getD_mem _ _ default hxlen)
        rw [decide_eq_true hxpend] at this
        cases this
    have hpe : (st.wf.steps.filter
        (fun s => decide (s.status = StepStatus.pending))).isEmpty = true :=
      (filter_isEmpty_iff _ _).mpr hnop
    have hiter : runIteration env st = IterOut.done st := by
      unfold runIteration
      rw [hre, hpe]
      simp only [if_true]
    refine ⟨st, ?_, hM, ?_⟩
    · rw [show runLoop env 1 st = (match runIteration env st with
        | IterOut.done s => Option.some s
        | IterOut.again s => runLoop env 0 s) from rfl, hiter]
    · intro i hi hp
      have h2 : decide ((stepAt st i).status = StepStatus.pending) = false :=
        hnop (st.wf.steps.getD i default) (getD_mem _ _ default hi)
      rw [decide_eq_true hp] at h2
      cases h2
  | succ n ih =>
    intro st hM hpc
    by_cases hre : (readyIdxs st.wf).isEmpty = true
    · by_cases hpe : (st.wf.steps.filter
          (fun s => decide (s.status = StepStatus.pending))).isEmpty = true
      · have hiter : runIteration env st = IterOut.done st := by
          unfold runIteration
          rw [hre, hpe]
          simp only [if_true]
        refine ⟨st, ?_, hM, ?_⟩
        · rw [show runLoop env (n + 1 + 1) st = (match runIteration env st with
            | IterOut.done s => Option.some s
            | IterOut.again s => runLoop env (n + 1) s) from rfl, hiter]
        · intro i hi hp
          have h2 : decide ((stepAt st i).status = StepStatus.pending) = false :=
            (filter_isEmpty_iff _ _).mp hpe (st.wf.steps.getD i default)
              (getD_mem _ _ default hi)
          rw [decide_eq_true hp] at h2
          cases h2
      · exfalso
        have hex : ∃ s, s ∈ st.wf.steps.filter
            (fun s => decide (s.status = StepStatus.pending)) := by
          cases hfe : st.wf.steps.filter
              (fun s => decide (s.status = StepStatus.pending)) with
          | nil => rw [hfe] at hpe; exact absurd rfl hpe
          | cons y t => exact ⟨y, List.mem_cons_self y t⟩
        obtain ⟨s, hs⟩ := hex
        rw [List.mem_filter] at hs
        obtain ⟨i, hilen, hig⟩ := exists_getD_of_mem default hs.1
        have hipend : (st.wf.steps.getD i default).status = StepStatus.pending := by
          rw [hig]
          exact of_decide_eq_true hs.2
        have := ready_ne_nil_of_pending hL hRS.no_dep_on_failing st hM.1.1
          hM.2.2.2.2 i hilen hipend
        exact this (List.isEmpty_iff.mp hre)
    · have hre' : (readyIdxs st.wf).isEmpty = false := by
        cases h : (readyIdxs st.wf).isEmpty with
        | false => rfl
        | true => exact absurd h hre
      obtain ⟨hiter, hM', hlt, _⟩ := runIteration_clean hRS st hM hcap1 hbud hre'
      have hstep : runLoop env (n + 1 + 1) st =
          runLoop env (n + 1) (runBatch env st (readyIdxs st.wf)) := by
        rw [show runLoop env (n + 1 + 1) st = (match runIteration env st with
          | IterOut.done s => Option.some s
          | IterOut.again s => runLoop env (n + 1) s) from rfl, hiter]
      obtain ⟨fin, h1, h2, h3⟩ := ih (runBatch env st (readyIdxs st.wf))
        hM' (by omega)
      exact ⟨fin, hstep.trans h1, h2, h3⟩

lemma countP_congr_getD {α : Type} (p q : α → Bool) (d : α) :
    ∀ l : List α, (∀ i, i < l.length → p (l.getD i d) = q (l.getD i d)) →
    l.countP p = l.countP q := by
  intro l
  induction l with
  | nil => intro _; rfl
  | cons x xs ih =>
    intro h
    have h0 : p x = q x := h 0 (Nat.succ_pos _)
    rw [List.countP_cons, List.countP_cons, h0,
      ih (fun i hi => h (i + 1) (Nat.succ_lt_succ hi))]

lemma countP_eq_of_skel (fails : String → Bool) :
    ∀ (l1 l2 : List WorkflowStep), l1.map stepSkel = l2.map stepSkel →
    l1.countP (fun s => !fails s.id) = l2.countP (fun s => !fails s.id) := by
  intro l1
  induction l1 with
  | nil =>
    intro l2 h
    cases l2 with
    | nil => rfl
    | cons y ys => cases h
  | cons x xs ih =>
    intro l2 h
    cases l2 with
    | nil => cases h
    | cons y ys =>
      simp only [List.map] at h
      have hid : x.id = y.id :=
        congrArg (fun q => q.1) (List.cons.injEq _ _ _ _ ▸ h).1
      have htail := ih ys ((List.cons.injEq _ _ _ _ ▸ h).2)
      rw [List.countP_cons, List.countP_cons, htail, hid]

lemma MInv_init {wf0 : WorkflowDefinition} {tr0 : CostTracker}
    {fails : String → Bool} {em : String → String}
    (hfresh : ∀ s ∈ wf0.steps, s.status = StepStatus.pending) :
    MInv wf0 tr0 fails em (initState wf0 tr0) := by
  refine ⟨⟨rfl, rfl, rfl⟩, rfl, rfl, rfl, ?_⟩
  intro i hi
  exact Or.inl (hfresh _ (getD_mem _ _ default hi))

lemma pendingCount_le_len (st : ExecState) : pendingCount st ≤ st.wf.steps.length :=
  List.length_filter_le _ _

lemma executeWorkflow_clean {env : AgentEnv} {wf0 : WorkflowDefinition}
    {tr0 : CostTracker} {fails : String → Bool} {em outp : String → String}
    {L : List String}
    (hRS : RunSpec env wf0 fails em outp)
    (hL : topoOkB wf0 L = true)
    (hcap1 : 1 ≤ wf0.max_parallel_steps)
    (hbud : get_total_cost tr0 < tr0.budget_usd)
    (hfresh : ∀ s ∈ wf0.steps, s.status = StepStatus.pending) :
    ∃ fin, executeWorkflow env wf0 tr0 (wf0.steps.length + 1) =
        Option.some (fin, Except.error attrErrorMsg) ∧
      fin.success = true ∧
      fin.wf.status = WorkflowStatus.completed ∧
      fin.wf.steps.length = wf0.steps.length ∧
      (∀ i, i < fin.wf.steps.length →
        (stepAt fin i).id = idAt wf0 i ∧
        stepDoneAt fails em (idAt wf0 i) (stepAt fin i)) ∧
      fin.wf.completed_steps =
        (wf0.steps.filter (fun s => !fails s.id)).length := by
  obtain ⟨st, hloop, hM, hnp⟩ := runLoop_progress hRS hL hcap1 hbud wf0.steps.length
    (initState wf0 tr0) (MInv_init hfresh)
    (pendingCount_le_len (initState wf0 tr0))
  obtain ⟨⟨hskel, hcap, hsof⟩, hsucc, htot, hbudE, hOK⟩ := hM
  obtain ⟨f1, f2, f3, f4, f5, f6, f7⟩ := finishWorkflow_core st
  have hexec : executeWorkflow env wf0 tr0 (wf0.steps.length + 1) =
      Option.some (finishWorkflow st, Except.error attrErrorMsg) := by
    unfold executeWorkflow
    rw [hloop]
  have hstepAt : ∀ i, stepAt (finishWorkflow st) i = stepAt st i := by
    intro i
    show (finishWorkflow st).wf.steps.getD i default = _
    rw [f1]
    rfl
  have hlen : (finishWorkflow st).wf.steps.length = wf0.steps.length := by
    rw [f1, len_of_skel hskel]
  have hdone : ∀ i, i < st.wf.steps.length →
      stepDoneAt fails em (idAt wf0 i) (stepAt st i) := by
    intro i hi
    have hid : (stepAt st i).id = idAt wf0 i :=
      congrArg (fun q => q.1) (skel_at_of_map hskel i)
    rcases hOK i hi with hp | ⟨hf, hc⟩ | ⟨hf, hc, hmsg⟩
    · exact absurd hp (hnp i hi)
    · refine Or.inl ⟨?_, hc⟩
      rw [← hid]
      exact hf
    · refine Or.inr ⟨?_, hc, ?_⟩
      · rw [← hid]
        exact hf
      · rw [← hid]
        exact hmsg
  refine ⟨finishWorkflow st, hexec, f2.trans hsucc, ?_, hlen, ?_, ?_⟩
  · rw [f6, hsucc]
    rfl
  · intro i hi
    rw [hstepAt i]
    have hi' : i < st.wf.steps.length := by
      rw [len_of_skel hskel]
      rw [hlen] at hi
      exact hi
    exact ⟨congrArg (fun q => q.1) (skel_at_of_map hskel i), hdone i hi'⟩
  · show ((finishWorkflow st).wf.steps.filter
      (fun s => decide (s.status = StepStatus.completed))).length = _
    rw [f1, ← List.countP_eq_length_filter, ← List.countP_eq_length_filter,
      countP_congr_getD (fun s => decide (s.status = StepStatus.completed))
        (fun s => !fails s.id) default st.wf.steps ?_,
      countP_eq_of_skel fails st.wf.steps wf0.steps hskel]
    intro i hi
    show decide ((st.wf.steps.getD i default).status = StepStatus.completed) =
      !fails (st.wf.steps.getD i default).id
    rcases hdone i hi with ⟨hf, hc⟩ | ⟨hf, hc, _⟩
    · have hid : (st.wf.steps.getD i default).id = idAt wf0 i :=
        congrArg (fun q => q.1) (skel_at_of_map hskel i)
      have hc' : (st.wf.steps.getD i default).status = StepStatus.completed := hc
      rw [hc', hid, hf]
      rfl
    · have hid : (st.wf.steps.getD i default).id = idAt wf0 i :=
        congrArg (fun q => q.1) (skel_at_of_map hskel i)
      have hc' : (st.wf.steps.getD i default).status = StepStatus.failed := hc
      rw [hc', hid, hf]
      rfl

/-- Claim C1 (corrected): as stated the claim is false — with an acyclic graph
and every dispatched step succeeding, the run can still end FAILED when the
architect's cost tracker is already at its ceiling (see the budget-gate
counterexample), and with `max_parallel_steps = 0` an ungrouped ready step is
never dispatched and the loop never terminates.  Amended with the implicit
preconditions — ledger strictly below the budget ceiling, `max_parallel_steps
≥ 1`, zero-cost successful runs, all steps initially PENDING — every step is
driven to COMPLETED and the workflow object ends COMPLETED (the call still
raises `AttributeError` from the `finally` block, claim C2). -/
theorem C1_corrected_all_success_completed (env : AgentEnv)
    (wf0 : WorkflowDefinition) (tr0 : CostTracker) (L : List String)
    (outp : String → String)
    (hRS : RunSpec env wf0 (fun _ => false) (fun _ => "") outp)
    (hL : topoOkB wf0 L = true)
    (hcap1 : 1 ≤ wf0.max_parallel_steps)
    (hbud : get_total_cost tr0 < tr0.budget_usd)
    (hfresh : ∀ s ∈ wf0.steps, s.status = StepStatus.pending) :
    ∃ fin, executeWorkflow env wf0 tr0 (wf0.steps.length + 1) =
        Option.some (fin, Except.error attrErrorMsg) ∧
      fin.wf.status = WorkflowStatus.completed ∧
      fin.wf.steps.length = wf0.steps.length ∧
      (∀ i, i < fin.wf.steps.length →
        (stepAt fin i).status = StepStatus.completed) ∧
      fin.wf.completed_steps = wf0.steps.length := by
  obtain ⟨fin, h1, _, h3, h4, h5, h6⟩ := executeWorkflow_clean hRS hL hcap1 hbud hfresh
  refine ⟨fin, h1, h3, h4, ?_, ?_⟩
  · intro i hi
    rcases (h5 i hi).2 with ⟨_, hc⟩ | ⟨hf, _, _⟩
    · exact hc
    · cases hf
  · rw [h6]
    have : wf0.steps.filter (fun s => !(fun _ => false) s.id) = wf0.steps :=
      List.filter_eq_self.mpr (fun s _ => rfl)
    rw [this]

/-- Witness for C1: the `§8` diamond workflow (`A`; then `B` and parallel
group `{C, D}` all depending on `A`) under an always-succeeding zero-cost
agent completes every step and ends COMPLETED. -/
theorem C1_witness :
    ∃ fin, executeWorkflow okEnv spec8Wf {} (spec8Wf.steps.length + 1) =
        Option.some (fin, Except.error attrErrorMsg) ∧
      fin.wf.status = WorkflowStatus.completed ∧
      fin.wf.steps.length = spec8Wf.steps.length ∧
      (∀ i, i < fin.wf.steps.length →
        (stepAt fin i).status = StepStatus.completed) ∧
      fin.wf.completed_steps = spec8Wf.steps.length :=
  C1_corrected_all_success_completed okEnv spec8Wf {} ["A", "B", "C", "D"]
    (fun _ => "out")
    ⟨by decide, fun s hs ins => rfl, Or.inr (fun s hs => rfl),
      fun s hs d hd => rfl⟩
    (by decide) (by decide) (by decide) (by decide)

lemma kaputA_runspec : RunSpec kaputAEnv abWf (fun sid => decide (sid = "A"))
    (fun _ => "kaput") (fun _ => "out") := by
  refine ⟨by decide, ?_, Or.inl rfl, ?_⟩
  · intro s hs ins
    rcases List.mem_cons.mp hs with h | h
    · subst h
      rfl
    · rcases List.mem_cons.mp h with h' | h'
      · subst h'
        rfl
      · exact absurd h' (List.not_mem_nil s)
  · intro s hs d hd
    rcases List.mem_cons.mp hs with h | h
    · subst h
      exact absurd hd (List.not_mem_nil d)
    · rcases List.mem_cons.mp h with h' | h'
      · subst h'
        exact absurd hd (List.not_mem_nil d)
      · exact absurd h' (List.not_mem_nil s)

/-- Claim C6 (corrected): when `stop_on_failure` is false and the failing
steps' runners raise while no step depends on a failing step, sibling and
independent steps still run to COMPLETED and each failing step is recorded
FAILED with the exception text as its `error_message` — but, contrary to the
claim, the returned result's success flag stays `true` (the batch failure
handler only clears it under `stop_on_failure`), the workflow even ends
COMPLETED, and `completed_steps` counts exactly the non-failing steps. -/
theorem C6_corrected_sibling_isolation (env : AgentEnv)
    (wf0 : WorkflowDefinition) (tr0 : CostTracker) (L : List String)
    (fails : String → Bool) (em outp : String → String)
    (hRS : RunSpec env wf0 fails em outp)
    (_hsof : wf0.stop_on_failure = false)
    (hL : topoOkB wf0 L = true)
    (hcap1 : 1 ≤ wf0.max_parallel_steps)
    (hbud : get_total_cost tr0 < tr0.budget_usd)
    (hfresh : ∀ s ∈ wf0.steps, s.status = StepStatus.pending) :
    ∃ fin, executeWorkflow env wf0 tr0 (wf0.steps.length + 1) =
        Option.some (fin, Except.error attrErrorMsg) ∧
      fin.success = true ∧
      fin.wf.status = WorkflowStatus.completed ∧
      fin.wf.steps.length = wf0.steps.length ∧
      (∀ i, i < fin.wf.steps.length →
        (fails (stepAt fin i).id = true →
          (stepAt fin i).status = StepStatus.failed ∧
          (stepAt fin i).error_message = Option.some (em (stepAt fin i).id)) ∧
        (fails (stepAt fin i).id = false →
          (stepAt fin i).status = StepStatus.completed)) ∧
      fin.wf.completed_steps = (wf0.steps.filter (fun s => !fails s.id)).length := by
  obtain ⟨fin, h1, h2, h3, h4, h5, h6⟩ := executeWorkflow_clean hRS hL hcap1 hbud hfresh
  refine ⟨fin, h1, h2, h3, h4, ?_, h6⟩
  intro i hi
  obtain ⟨hid, hdone⟩ := h5 i hi
  constructor
  · intro hf
    rw [hid] at hf
    rcases hdone with ⟨hf', _⟩ | ⟨_, hst, hmsg⟩
    · rw [hf'] at hf
      cases hf
    · refine ⟨hst, ?_⟩
      rw [hid]
      exact hmsg
  · intro hf
    rw [hid] at hf
    rcases hdone with ⟨_, hc⟩ | ⟨hf', _, _⟩
    · exact hc
    · rw [hf'] at hf
      cases hf

/-- Witness for C6: two independent steps with `stop_on_failure = false`,
`A`'s runner raising `kaput`: `B` completes, `A` is FAILED with `kaput`, the
result's success flag stays `true`, the workflow ends COMPLETED, and one step
counts as completed. -/
theorem C6_witness :
    ∃ fin, executeWorkflow kaputAEnv abWf {} (abWf.steps.length + 1) =
        Option.some (fin, Except.error attrErrorMsg) ∧
      fin.success = true ∧
      fin.wf.status = WorkflowStatus.completed ∧
      fin.wf.steps.length = abWf.steps.length ∧
      (∀ i, i < fin.wf.steps.length →
        ((fun sid => decide (sid = "A")) (stepAt fin i).id = true →
          (stepAt fin i).status = StepStatus.failed ∧
          (stepAt fin i).error_message =
            Option.some ((fun _ => "kaput") (stepAt fin i).id)) ∧
        ((fun sid => decide (sid = "A")) (stepAt fin i).id = false →
          (stepAt fin i).status = StepStatus.completed)) ∧
      fin.wf.completed_steps =
        (abWf.steps.filter (fun s => !decide (s.id = "A"))).length :=
  C6_corrected_sibling_isolation kaputAEnv abWf {} ["A", "B"]
    (fun sid => decide (sid = "A")) (fun _ => "kaput") (fun _ => "out")
    kaputA_runspec rfl (by decide) (by decide) (by decide) (by decide)

lemma runLoop_stuck {env : AgentEnv} {wf0 : WorkflowDefinition}
    {tr0 : CostTracker} {fails : String → Bool} {em outp : String → String}
    {S : List Nat}
    (hRS : RunSpec env wf0 fails em outp)
    (hcap1 : 1 ≤ wf0.max_parallel_steps)
    (hbud : get_total_cost tr0 < tr0.budget_usd)
    (hSne : S ≠ [])
    (hSdep : ∀ i ∈ S, ∃ d ∈ (wf0.steps.getD i default).depends_on,
      ∃ k ∈ S, getStepIdx wf0 d = Option.some k) :
    ∀ (n : Nat) (st : ExecState), MInv wf0 tr0 fails em st → pendingCount st ≤ n →
    (∀ i ∈ S, i < st.wf.steps.length ∧
      (stepAt st i).status = StepStatus.pending) →
    ∃ st', runLoop env (n + 1) st = Option.some (stuckFailState st') := by
  intro n
  induction n with
  | zero =>
    intro st _ hpc hS
    exfalso
    obtain ⟨i0, hi0⟩ := List.exists_mem_of_ne_nil S hSne
    obtain ⟨hlen, hpend⟩ := hS i0 hi0
    have hmem : st.wf.steps.getD i0 default ∈ st.wf.steps.filter
        (fun s => decide (s.status = StepStatus.pending)) :=
      List.mem_filter.mpr ⟨getD_mem _ _ default hlen, decide_eq_true hpend⟩
    have hpos : 0 < pendingCount st := by
      unfold pendingCount
      exact List.length_pos.mpr (List.ne_nil_of_mem hmem)
    omega
  | succ n ih =>
    intro st hM hpc hS
    obtain ⟨i0, hi0⟩ := List.exists_mem_of_ne_nil S hSne
    by_cases hre : (readyIdxs st.wf).isEmpty = true
    · have hpe : (st.wf.steps.filter
          (fun s => decide (s.status = StepStatus.pending))).isEmpty = false := by
        cases h : (st.wf.steps.filter
            (fun s => decide (s.status = StepStatus.pending))).isEmpty with
        | false => rfl
        | true =>
          exfalso
          obtain ⟨hlen, hpend⟩ := hS i0 hi0
          have h2 : decide ((stepAt st i0).status = StepStatus.pending) = false :=
            (filter_isEmpty_iff _ _).mp h (st.wf.steps.getD i0 default)
              (getD_mem _ _ default hlen)
          rw [decide_eq_true hpend] at h2
          cases h2
      have hrun : (st.wf.steps.filter
          (fun s => decide (s.status = StepStatus.running))).isEmpty = true := by
        refine (filter_isEmpty_iff _ _).mpr ?_
        intro s hs
        obtain ⟨i, hilen, hig⟩ := exists_getD_of_mem default hs
        rcases hM.2.2.2.2 i hilen with hp | ⟨_, hp⟩ | ⟨_, hp, _⟩ <;>
          · rw [← hig, hp]
            rfl
      have hiter : runIteration env st = IterOut.done (stuckFailState st) := by
        unfold runIteration
        rw [hre, hpe, hrun]
        simp only [Bool.false_eq_true, if_false, if_true]
      exact ⟨st, by
        rw [show runLoop env (n + 1 + 1) st = (match runIteration env st with
          | IterOut.done s => Option.some s
          | IterOut.again s => runLoop env (n + 1) s) from rfl, hiter]⟩
    · have hre' : (readyIdxs st.wf).isEmpty = false := by
        cases h : (readyIdxs st.wf).isEmpty with
        | false => rfl
        | true => exact absurd h hre
      obtain ⟨hiter, hM', hlt, hdich⟩ := runIteration_clean hRS st hM hcap1 hbud hre'
      have hS' : ∀ i ∈ S, i < (runBatch env st (readyIdxs st.wf)).wf.steps.length ∧
          (stepAt (runBatch env st (readyIdxs st.wf)) i).status =
            StepStatus.pending := by
        intro i hi
        obtain ⟨hlen, hpend⟩ := hS i hi
        refine ⟨by rw [frame_len (runBatch_frame env st _)]; exact hlen, ?_⟩
        rcases hdich i with heq | ⟨hmemR, _⟩
        · rw [heq]
          exact hpend
        · exfalso
          obtain ⟨_, _, hdm⟩ := (mem_readyIdxs st.wf i).mp hmemR
          obtain ⟨d, hd, k, hk, hgs⟩ := hSdep i hi
          have hdeps : (st.wf.steps.getD i default).depends_on =
              (wf0.steps.getD i default).depends_on :=
            congrArg (fun q => q.2.2.1) (skel_at_of_map hM.1.1 i)
          have hgs' : getStepIdx st.wf d = Option.some k := by
            rw [getStepIdx_congr hM.1.1 d]
            exact hgs
          have hkc := (depsMet_idx_iff st.wf _).mp hdm d
            (by rw [hdeps]; exact hd) k hgs'
          have hkc' : (stepAt st k).status = StepStatus.completed := hkc
          rw [(hS k hk).2] at hkc'
          cases hkc'
      have hstep : runLoop env (n + 1 + 1) st =
          runLoop env (n + 1) (runBatch env st (readyIdxs st.wf)) := by
        rw [show runLoop env (n + 1 + 1) st = (match runIteration env st with
          | IterOut.done s => Option.some s
          | IterOut.again s => runLoop env (n + 1) s) from rfl, hiter]
      obtain ⟨st', h⟩ := ih (runBatch env st (readyIdxs st.wf)) hM' (by omega) hS'
      exact ⟨st', hstep.trans h⟩

/-- Claim C5 (corrected): as stated the claim is false — a step failure under
`stop_on_failure` (or the budget gate) can end the run FAILED without the
stuck-workflow message, and the cyclic steps are simply left PENDING (see the
preemption counterexample).  Amended to the intended scenario — no step
failures, ledger below budget, `max_parallel_steps ≥ 1`, fresh statuses — a
workflow containing a set of PENDING steps each depending on another member
of the set terminates FAILED with the stuck-workflow error message rather
than looping forever. -/
theorem C5_corrected_cycle_stuck (env : AgentEnv) (wf0 : WorkflowDefinition)
    (tr0 : CostTracker) (outp : String → String) (S : List Nat)
    (hRS : RunSpec env wf0 (fun _ => false) (fun _ => "") outp)
    (hcap1 : 1 ≤ wf0.max_parallel_steps)
    (hbud : get_total_cost tr0 < tr0.budget_usd)
    (hfresh : ∀ s ∈ wf0.steps, s.status = StepStatus.pending)
    (hSne : S ≠ [])
    (hSlen : ∀ i ∈ S, i < wf0.steps.length)
    (hSdep : ∀ i ∈ S, ∃ d ∈ (wf0.steps.getD i default).depends_on,
      ∃ k ∈ S, getStepIdx wf0 d = Option.some k) :
    ∃ fin, executeWorkflow env wf0 tr0 (wf0.steps.length + 1) =
        Option.some (fin, Except.error attrErrorMsg) ∧
      fin.wf.status = WorkflowStatus.failed ∧
      fin.wf.error_message = Option.some stuckMsg ∧
      fin.success = false ∧
      fin.error = Option.some stuckMsg := by
  obtain ⟨st', hloop⟩ := runLoop_stuck hRS hcap1 hbud hSne hSdep wf0.steps.length
    (initState wf0 tr0) (MInv_init hfresh) (pendingCount_le_len _)
    (fun i hi => ⟨hSlen i hi, hfresh _ (getD_mem _ _ default (hSlen i hi))⟩)
  obtain ⟨f1, f2, f3, f4, f5, f6, f7⟩ := finishWorkflow_core (stuckFailState st')
  refine ⟨finishWorkflow (stuckFailState st'), ?_, ?_, ?_, ?_, ?_⟩
  · unfold executeWorkflow
    rw [hloop]
  · rw [f6]
    rfl
  · rw [f7]
    rfl
  · rw [f2]
    rfl
  · rw [f5]
    rfl

/-- Witness for C5: the `A ↔ B` cycle with an independent step `C` under an
always-succeeding agent: `C` completes in batch one, then the loop detects
the stuck graph and fails with the stuck message. -/
theorem C5_witness :
    ∃ fin, executeWorkflow okEnv cycleWf {} (cycleWf.steps.length + 1) =
        Option.some (fin, Except.error attrErrorMsg) ∧
      fin.wf.status = WorkflowStatus.failed ∧
      fin.wf.error_message = Option.some stuckMsg ∧
      fin.success = false ∧
      fin.error = Option.some stuckMsg :=
  C5_corrected_cycle_stuck okEnv cycleWf {} (fun _ => "out") [0, 1]
    ⟨by decide, fun s hs ins => rfl, Or.inr (fun s hs => rfl),
      fun s hs d hd => rfl⟩
    (by decide) (by decide) (by decide) (by decide) (by decide) (by decide)

end Forge
